import Mathlib

/-!
# Thread-predicate propagation of the CUDA code generator

A shallow embedding of `torch/csrc/jit/codegen/cuda/lower_thread_predicate.cpp`:
the guard builder (`getPredicatePerParallelType`, `getPredicate`), the source-map
helpers (`mergeSourceMap`, `addToSouceMap`, `maskSouceMap`) and the
`ThreadPredicateMap` operations (`updateBitSet`, the constructor, `insert`,
`duplicate`, `getExpr`), followed by theorems about them.

Conventions of the embedding:
* a `const TensorView*` is a `TensorView` value (its name together with its domain);
* `std::unordered_set<const TensorView*>` is a `Finset TensorView`;
* `std::unordered_map` is a function into `Option` (`none` = key absent);
* a C++ exception is the `error` branch of `Except`; an operation that mutates the
  map and may throw returns the outcome together with the map it leaves behind.
-/

namespace Fuser

/-! ## Data model -/

/-- The parallel dimension kinds covered by `ParallelTypeBitmap`, in the order of the
`ParallelType` enumeration. -/
inductive ParallelType where
  | BIDz | BIDy | BIDx | TIDz | TIDy | TIDx
  deriving DecidableEq, Repr

/-- Modelled from the spec: the `IterDomain` class is declared outside this file; an
iteration dimension exposes (is-thread-parallelized, parallel-kind, is-reduction,
is-broadcast). -/
structure IterDomain where
  isThread : Bool
  getParallelType : ParallelType
  isReduction : Bool
  isBroadcast : Bool
  deriving DecidableEq, Repr

/-- A tensor view: its identity (`name`) and `domain()->domain()`. -/
structure TensorView where
  name : Nat
  domain : List IterDomain
  deriving DecidableEq, Repr

/-- A fusion IR value: a tensor view (`ir_utils::isTV`) or anything else. -/
inductive Val where
  | tv (t : TensorView)
  | scalar (n : Nat)
  deriving DecidableEq, Repr

/-- The test `ir_utils::isTV`. -/
def Val.isTV : Val → Bool
  | Val.tv _ => true
  | Val.scalar _ => false

/-- An operation with ordered inputs and outputs. -/
structure Expr where
  inputs : List Val
  outputs : List Val
  deriving DecidableEq, Repr

/-- A fusion: `inputs()` and the ordered expression list `exprs(true)`. -/
structure Fusion where
  inputs : List Val
  exprs : List Expr
  deriving DecidableEq, Repr

/-- The failures raised by the pass, one constructor per assertion site. -/
inductive Error where
  /-- `TORCH_INTERNAL_ASSERT(!sources.empty(), "No predicate source found")` -/
  | noPredicateSource
  /-- `TORCH_INTERNAL_ASSERT(sources.size() == 1, "Multiple sources detected")` -/
  | multipleSources
  /-- `std::out_of_range` thrown by `unordered_map::at` -/
  | outOfRange
  /-- `TORCH_INTERNAL_ASSERT(pred != nullptr)` -/
  | nullPredicate
  /-- "Tried to return a predicate that is not a bool val." -/
  | notBoolPredicate
  /-- "Thread predicate map was not initialized, couldn't find ..." -/
  | notInitialized
  /-- "Mismatched parallelized reductions found on inputs of epxr: ..." -/
  | mismatchedReductions
  /-- "Invalid broadcast and reduction combination, ..." -/
  | invalidBroadcastReduction
  /-- `TORCH_INTERNAL_ASSERT(find(out) == end())` in the output loop -/
  | outputAlreadyPresent
  /-- "Couldn't find ..." in `getExpr` -/
  | couldNotFind
  deriving DecidableEq, Repr

/-! ## ParallelTypeBitmap -/

/-- Modelled from the spec: `ir_utils::ParallelTypeBitmap` is declared outside this
file; it is a fixed-size bit set indexed by the parallel dimension kinds, with union,
intersection, complement, emptiness test and iteration over (kind, present) pairs. -/
structure ParallelTypeBitmap where
  bitset_ : ParallelType → Bool

/-- The default-constructed bitmap (all bits clear). -/
def ParallelTypeBitmap.empty : ParallelTypeBitmap := ⟨fun _ => false⟩

/-- The accessor `get(pt)` / `operator[]`. -/
def ParallelTypeBitmap.get (b : ParallelTypeBitmap) (pt : ParallelType) : Bool :=
  b.bitset_ pt

/-- The mutator `set(pt, v)`. -/
def ParallelTypeBitmap.set (b : ParallelTypeBitmap) (pt : ParallelType) (v : Bool) :
    ParallelTypeBitmap :=
  ⟨fun k => if k = pt then v else b.bitset_ k⟩

/-- The union `|`. -/
def ParallelTypeBitmap.or (a b : ParallelTypeBitmap) : ParallelTypeBitmap :=
  ⟨fun k => a.bitset_ k || b.bitset_ k⟩

/-- The intersection `&`. -/
def ParallelTypeBitmap.and (a b : ParallelTypeBitmap) : ParallelTypeBitmap :=
  ⟨fun k => a.bitset_ k && b.bitset_ k⟩

/-- The complement `~`. -/
def ParallelTypeBitmap.not (a : ParallelTypeBitmap) : ParallelTypeBitmap :=
  ⟨fun k => !a.bitset_ k⟩

/-- The kinds by bit offset (0 to `num_p_type - 1`), the order of the validation loop. -/
def offsetOrder : List ParallelType :=
  [ParallelType.BIDx, ParallelType.BIDy, ParallelType.BIDz,
   ParallelType.TIDx, ParallelType.TIDy, ParallelType.TIDz]

/-- The kinds in the key order of the `std::map` returned by `getMap()`. -/
def mapOrder : List ParallelType :=
  [ParallelType.BIDz, ParallelType.BIDy, ParallelType.BIDx,
   ParallelType.TIDz, ParallelType.TIDy, ParallelType.TIDx]

/-- The test `none()`: no bit is set. -/
def ParallelTypeBitmap.none (b : ParallelTypeBitmap) : Bool :=
  offsetOrder.all (fun k => !b.bitset_ k)

/-- The test `any()`: some bit is set. -/
def ParallelTypeBitmap.any (b : ParallelTypeBitmap) : Bool :=
  offsetOrder.any (fun k => b.bitset_ k)

/-- The (kind, present) pairs of `getMap()`. -/
def ParallelTypeBitmap.getMap (b : ParallelTypeBitmap) : List (ParallelType × Bool) :=
  mapOrder.map (fun k => (k, b.bitset_ k))

/-! ## Source maps -/

/-- The type `SourceMapType`: kind ↦ set of source tensors (`none` = no entry). -/
abbrev SourceMapType := ParallelType → Option (Finset TensorView)

/-- The default-constructed source map (no entries). -/
def SourceMapType.empty : SourceMapType := fun _ => Option.none

/-- The access `m[key]` (which creates an empty entry when there is none) followed by
the in-place update `f` of the referenced set. -/
def SourceMapType.modify (m : SourceMapType) (key : ParallelType)
    (f : Finset TensorView → Finset TensorView) : SourceMapType :=
  fun k => if k = key then some (f ((m k).getD ∅)) else m k

/-- The sources recorded for a kind (empty when there is no entry). -/
def SourceMapType.sourcesOf (m : SourceMapType) (k : ParallelType) : Finset TensorView :=
  (m k).getD ∅

/-- The source function `mergeSourceMap(dst, src)`. -/
def mergeSourceMap (dst src : SourceMapType) : SourceMapType :=
  mapOrder.foldl
    (fun d src_key =>
      match src src_key with
      | Option.none => d
      | some src_value => SourceMapType.modify d src_key (fun dst_set => dst_set ∪ src_value))
    dst

/-- The source function `addToSouceMap(dst, tv, reducton_pred)`. -/
def addToSouceMap (dst : SourceMapType) (tv : TensorView)
    (reducton_pred : ParallelTypeBitmap) : SourceMapType :=
  reducton_pred.getMap.foldl
    (fun d kv => if kv.2 then SourceMapType.modify d kv.1 (fun s => insert tv s) else d)
    dst

/-- The source function `maskSouceMap(src_map, mask)`. -/
def maskSouceMap (src_map : SourceMapType) (mask : ParallelTypeBitmap) : SourceMapType :=
  mask.getMap.foldl
    (fun d kv => if !kv.2 then SourceMapType.modify d kv.1 (fun _ => ∅) else d)
    src_map

/-! ## Kernel IR values built by the guard builder -/

/-- Data types of kernel IR values. -/
inductive DataType where
  | Bool | Int
  deriving DecidableEq, Repr

/-- Modelled from the spec: the names of `kir::NamedScalar` come from functions declared
outside this file; a name is either the thread index along a kind
(`NamedScalar::getParallelIndex`) or the flag uniquely derived from a source tensor
(`GridReduction::getPredicateFlagName`). -/
inductive ScalarName where
  | parallelIndex (pt : ParallelType)
  | predicateFlag (src : TensorView)
  deriving DecidableEq, Repr

/-- Modelled from the spec: the kernel IR expression nodes (`kir::Bool`, `kir::Int`,
`kir::NamedScalar`, `kir::eqExpr`, `kir::andExpr`) are declared outside this file; they
are boolean- or integer-valued expression nodes. -/
inductive KirVal where
  | boolConst (b : Bool)
  | intConst (n : Int)
  | namedScalar (name : ScalarName) (dtype : DataType)
  | eqExpr (lhs rhs : KirVal)
  | andExpr (lhs rhs : KirVal)
  deriving DecidableEq, Repr

/-- The data type of a kernel IR value (`getDataType()`); comparison and conjunction
nodes are boolean. -/
def KirVal.getDataType : KirVal → Option DataType
  | KirVal.boolConst _ => some DataType.Bool
  | KirVal.intConst _ => some DataType.Int
  | KirVal.namedScalar _ dtype => some dtype
  | KirVal.eqExpr _ _ => some DataType.Bool
  | KirVal.andExpr _ _ => some DataType.Bool

/-- The named scalar `kir::NamedScalar::getParallelIndex(pt)`. -/
def getParallelIndex (pt : ParallelType) : KirVal :=
  KirVal.namedScalar (ScalarName.parallelIndex pt) DataType.Int

/-- The name `kir::GridReduction::getPredicateFlagName(src)`. -/
def getPredicateFlagName (src : TensorView) : ScalarName :=
  ScalarName.predicateFlag src

/-- A runtime environment: the thread/block index along each kind and the value of the
flag of each source tensor. -/
structure Env where
  index : ParallelType → Int
  flag : TensorView → Bool

/-- A runtime value. -/
inductive RtVal where
  | bool (b : Bool)
  | int (n : Int)
  deriving DecidableEq, Repr

/-- The value of a kernel IR expression in an environment (`none` when ill-typed). -/
def KirVal.eval (env : Env) : KirVal → Option RtVal
  | KirVal.boolConst b => some (RtVal.bool b)
  | KirVal.intConst n => some (RtVal.int n)
  | KirVal.namedScalar (ScalarName.parallelIndex pt) DataType.Int =>
      some (RtVal.int (env.index pt))
  | KirVal.namedScalar (ScalarName.predicateFlag src) DataType.Bool =>
      some (RtVal.bool (env.flag src))
  | KirVal.namedScalar _ _ => Option.none
  | KirVal.eqExpr lhs rhs =>
      match KirVal.eval env lhs, KirVal.eval env rhs with
      | some (RtVal.int a), some (RtVal.int b) => some (RtVal.bool (decide (a = b)))
      | some (RtVal.bool a), some (RtVal.bool b) => some (RtVal.bool (decide (a = b)))
      | _, _ => Option.none
  | KirVal.andExpr lhs rhs =>
      match KirVal.eval env lhs, KirVal.eval env rhs with
      | some (RtVal.bool a), some (RtVal.bool b) => some (RtVal.bool (a && b))
      | _, _ => Option.none

/-! ## The guard builder -/

/-- The first element of a one-element list (`none` for any other length). -/
def soleOfList : List TensorView → Option TensorView
  | [a] => some a
  | _ => Option.none

/-- The element `*sources.begin()` of a set of size one (`none` for any other size). -/
def soleSource (sources : Finset TensorView) : Option TensorView :=
  Quot.liftOn sources.val soleOfList
    (by
      intro l₁ l₂ h
      have hp : List.Perm l₁ l₂ := h
      have hlen : l₁.length = l₂.length := List.Perm.length_eq hp
      rcases l₁ with _ | ⟨a, _ | ⟨b, t⟩⟩
      · cases l₂ with
        | nil => rfl
        | cons c u => simp at hlen
      · have h2 : l₂ = [a] := List.perm_singleton.mp (List.Perm.symm hp)
        rw [h2]
      · rcases l₂ with _ | ⟨c, _ | ⟨d, u⟩⟩
        · simp at hlen
        · simp at hlen
        · rfl)

/-- The source function `getPredicatePerParallelType(pt, sources)`. -/
def getPredicatePerParallelType (pt : ParallelType) (sources : Finset TensorView) :
    Except Error KirVal :=
  if pt = ParallelType.BIDx ∨ pt = ParallelType.BIDy ∨ pt = ParallelType.BIDz then
    if sources.card = 0 then Except.error Error.noPredicateSource
    else if sources.card ≠ 1 then Except.error Error.multipleSources
    else
      match soleSource sources with
      | some src => Except.ok (KirVal.namedScalar (getPredicateFlagName src) DataType.Bool)
      | Option.none => Except.error Error.multipleSources
  else
    Except.ok (KirVal.eqExpr (getParallelIndex pt) (KirVal.intConst 0))

/-- The loop of `getPredicate` over the (kind, present) pairs, threading `pred`
(`none` = `nullptr`). -/
def getPredicateLoop (sources : SourceMapType) :
    List (ParallelType × Bool) → Option KirVal → Except Error (Option KirVal)
  | [], pred => Except.ok pred
  | pt_bool :: rest, pred =>
      if pt_bool.2 then
        match sources pt_bool.1 with
        | Option.none => Except.error Error.outOfRange
        | some srcs =>
            match getPredicatePerParallelType pt_bool.1 srcs with
            | Except.error e => Except.error e
            | Except.ok tp =>
                getPredicateLoop sources rest
                  (some (match pred with
                    | Option.none => tp
                    | some p => KirVal.andExpr p tp))
      else getPredicateLoop sources rest pred

/-- The source function `getPredicate(bits, sources)`. The final downcast
`pred->as<kir::Bool>()` is the identity on the expression. -/
def getPredicate (bits : ParallelTypeBitmap) (sources : SourceMapType) :
    Except Error KirVal :=
  if bits.none then Except.ok (KirVal.boolConst true)
  else
    match getPredicateLoop sources bits.getMap Option.none with
    | Except.error e => Except.error e
    | Except.ok Option.none => Except.error Error.nullPredicate
    | Except.ok (some pred) =>
        if pred.getDataType = some DataType.Bool then Except.ok pred
        else Except.error Error.notBoolPredicate

/-! ## ThreadPredicateMap -/

/-- The mapped type of the predicate map: (bitmap, source map). -/
abbrev PredAndSource := ParallelTypeBitmap × SourceMapType

/-- The class `ThreadPredicateMap`: its member `thread_predicates_`. -/
structure ThreadPredicateMap where
  thread_predicates_ : TensorView → Option PredAndSource

/-- The map before the constructor body runs. -/
def ThreadPredicateMap.init : ThreadPredicateMap := ⟨fun _ => Option.none⟩

/-- The lookup `find(tv)` (`none` = `end()`). -/
def ThreadPredicateMap.find (m : ThreadPredicateMap) (tv : TensorView) :
    Option PredAndSource :=
  m.thread_predicates_ tv

/-- The lookup `at(tv)`, which throws when the key is absent. -/
def ThreadPredicateMap.at (m : ThreadPredicateMap) (tv : TensorView) :
    Except Error PredAndSource :=
  match m.thread_predicates_ tv with
  | some r => Except.ok r
  | Option.none => Except.error Error.outOfRange

/-- The source function `insert(tv, pred, src_map)`: `unordered_map::insert`, which
leaves the map alone when the key is present. -/
def ThreadPredicateMap.insert (m : ThreadPredicateMap) (tv : TensorView)
    (pred : ParallelTypeBitmap) (src_map : SourceMapType) : ThreadPredicateMap :=
  match m.thread_predicates_ tv with
  | some _ => m
  | Option.none => ⟨fun t => if t = tv then some (pred, src_map) else m.thread_predicates_ t⟩

/-- The source function `duplicate(copy, origin)`. -/
def ThreadPredicateMap.duplicate (m : ThreadPredicateMap) (copy origin : TensorView) :
    ThreadPredicateMap :=
  match m.find origin with
  | some r => m.insert copy r.1 r.2
  | Option.none => m

/-- The source function `getExpr(tv)`. -/
def ThreadPredicateMap.getExpr (m : ThreadPredicateMap) (tv : TensorView) :
    Except Error KirVal :=
  match m.find tv with
  | Option.none => Except.error Error.couldNotFind
  | some r => getPredicate r.1 r.2

/-! ## updateBitSet -/

/-- The three per-input bitmaps `id_reductions`, `id_bcasts`, `id_ptypes`. -/
structure IdBits where
  id_reductions : ParallelTypeBitmap
  id_bcasts : ParallelTypeBitmap
  id_ptypes : ParallelTypeBitmap

/-- One iteration of the loop over `tv_inp->domain()->domain()`. -/
def classifyStep (s : IdBits) (id : IterDomain) : IdBits :=
  if id.isThread then
    let id_ptypes := s.id_ptypes.set id.getParallelType true
    let id_reductions :=
      if id.isReduction then s.id_reductions.set id.getParallelType true
      else s.id_reductions
    let id_bcasts :=
      if id.isBroadcast then s.id_bcasts.set id.getParallelType true
      else s.id_bcasts
    ⟨id_reductions, id_bcasts, id_ptypes⟩
  else s

/-- The loop over `tv_inp->domain()->domain()`, from three empty bitmaps. -/
def classifyDomain (domain : List IterDomain) : IdBits :=
  domain.foldl classifyStep
    ⟨ParallelTypeBitmap.empty, ParallelTypeBitmap.empty, ParallelTypeBitmap.empty⟩

/-- The validation loop "Validate the combination of ptypes, reductions, bcasts" over
the bit offsets. -/
def validateCombination (input_reductions : ParallelTypeBitmap) (ids : IdBits) :
    List ParallelType → Except Error Unit
  | [] => Except.ok ()
  | i :: rest =>
      if input_reductions.get i then
        if ids.id_ptypes.get i then
          if !ids.id_reductions.get i then Except.error Error.mismatchedReductions
          else if ids.id_bcasts.get i then Except.error Error.invalidBroadcastReduction
          else validateCombination input_reductions ids rest
        else validateCombination input_reductions ids rest
      else validateCombination input_reductions ids rest

/-- The locals `input_preds`, `input_reductions`, `input_bcasts`, `src_map` of
`updateBitSet`. -/
structure InputAcc where
  input_preds : ParallelTypeBitmap
  input_reductions : ParallelTypeBitmap
  input_bcasts : ParallelTypeBitmap
  src_map : SourceMapType

/-- The locals of `updateBitSet` before the input loop. -/
def InputAcc.init : InputAcc :=
  ⟨ParallelTypeBitmap.empty, ParallelTypeBitmap.empty, ParallelTypeBitmap.empty,
   SourceMapType.empty⟩

/-- One iteration of the input loop of `updateBitSet`. -/
def processInput (m : ThreadPredicateMap) (acc : InputAcc) (inp : Val) :
    Except Error InputAcc :=
  match inp with
  | Val.scalar _ => Except.ok acc
  | Val.tv tv_inp =>
      match m.find tv_inp with
      | Option.none => Except.error Error.notInitialized
      | some r =>
          let input_preds := acc.input_preds.or r.1
          let src_map := mergeSourceMap acc.src_map r.2
          let ids := classifyDomain tv_inp.domain
          match validateCombination acc.input_reductions ids offsetOrder with
          | Except.error e => Except.error e
          | Except.ok _ =>
              let input_reductions := acc.input_reductions.or ids.id_reductions
              let input_bcasts := acc.input_bcasts.or ids.id_bcasts
              let src_map :=
                if ids.id_reductions.any then addToSouceMap src_map tv_inp ids.id_reductions
                else src_map
              Except.ok ⟨input_preds, input_reductions, input_bcasts, src_map⟩

/-- The input loop of `updateBitSet`. -/
def inputLoop (m : ThreadPredicateMap) : List Val → InputAcc → Except Error InputAcc
  | [], acc => Except.ok acc
  | inp :: rest, acc =>
      match processInput m acc inp with
      | Except.error e => Except.error e
      | Except.ok acc1 => inputLoop m rest acc1

/-- The value of `output_preds` right after `input_preds | input_reductions`. -/
def preResetOutputPreds (acc : InputAcc) : ParallelTypeBitmap :=
  acc.input_preds.or acc.input_reductions

/-- The mask `bcast_reset_map` after it has been flipped. -/
def bcastResetMap (acc : InputAcc) : ParallelTypeBitmap :=
  ((preResetOutputPreds acc).and acc.input_bcasts).not

/-- The final `output_preds`. -/
def outputPreds (acc : InputAcc) : ParallelTypeBitmap :=
  (preResetOutputPreds acc).and (bcastResetMap acc)

/-- The final `src_map`. -/
def outputSrcMap (acc : InputAcc) : SourceMapType :=
  maskSouceMap acc.src_map (bcastResetMap acc)

/-- The output loop of `updateBitSet`; on failure the records inserted so far stay. -/
def outputLoop (output_preds : ParallelTypeBitmap) (src_map : SourceMapType) :
    List Val → ThreadPredicateMap → Except Error Unit × ThreadPredicateMap
  | [], m => (Except.ok (), m)
  | out :: rest, m =>
      match out with
      | Val.scalar _ => outputLoop output_preds src_map rest m
      | Val.tv tv_out =>
          match m.find tv_out with
          | some _ => (Except.error Error.outputAlreadyPresent, m)
          | Option.none => outputLoop output_preds src_map rest (m.insert tv_out output_preds src_map)

/-- The source function `ThreadPredicateMap::updateBitSet(expr)`: the outcome and the
map it leaves behind. -/
def ThreadPredicateMap.updateBitSet (m : ThreadPredicateMap) (expr : Expr) :
    Except Error Unit × ThreadPredicateMap :=
  match inputLoop m expr.inputs InputAcc.init with
  | Except.error e => (Except.error e, m)
  | Except.ok acc => outputLoop (outputPreds acc) (outputSrcMap acc) expr.outputs m

/-! ## The constructor -/

/-- The first loop of the constructor: an empty record for every tensor input. -/
def insertInputs : List Val → ThreadPredicateMap → ThreadPredicateMap
  | [], m => m
  | inp :: rest, m =>
      match inp with
      | Val.tv t => insertInputs rest (m.insert t ParallelTypeBitmap.empty SourceMapType.empty)
      | Val.scalar _ => insertInputs rest m

/-- The second loop of the constructor: `updateBitSet` on every expression. -/
def updateAll : List Expr → ThreadPredicateMap → Except Error ThreadPredicateMap
  | [], m => Except.ok m
  | expr :: rest, m =>
      match m.updateBitSet expr with
      | (Except.error e, _) => Except.error e
      | (Except.ok _, m1) => updateAll rest m1

/-- The constructor `ThreadPredicateMap::ThreadPredicateMap(fusion)`; a throwing
constructor yields no map. -/
def ThreadPredicateMap.create (fusion : Fusion) : Except Error ThreadPredicateMap :=
  updateAll fusion.exprs (insertInputs fusion.inputs ThreadPredicateMap.init)

/-! ## Views used to state properties -/

/-- The tensor views among a list of values, in order. -/
def tensorViews : List Val → List TensorView
  | [] => []
  | Val.tv t :: rest => t :: tensorViews rest
  | Val.scalar _ :: rest => tensorViews rest

/-- Some dimension of the tensor is thread-parallelized on kind `k`. -/
def TensorView.parallelOn (t : TensorView) (k : ParallelType) : Bool :=
  t.domain.any (fun id => id.isThread && decide (id.getParallelType = k))

/-- Some dimension of the tensor is a thread-parallelized reduction on kind `k`. -/
def TensorView.reductionOn (t : TensorView) (k : ParallelType) : Bool :=
  t.domain.any (fun id => id.isThread && decide (id.getParallelType = k) && id.isReduction)

/-- Some dimension of the tensor is a thread-parallelized broadcast on kind `k`. -/
def TensorView.broadcastOn (t : TensorView) (k : ParallelType) : Bool :=
  t.domain.any (fun id => id.isThread && decide (id.getParallelType = k) && id.isBroadcast)

/-- The kind is one of the block-level kinds. -/
def ParallelType.isBlockDim : ParallelType → Bool
  | ParallelType.BIDx => true
  | ParallelType.BIDy => true
  | ParallelType.BIDz => true
  | _ => false

/-- The union of the bitmaps recorded in the map for the given tensors. -/
def recordedBitmapUnion (m : ThreadPredicateMap) : List TensorView → ParallelTypeBitmap
  | [] => ParallelTypeBitmap.empty
  | t :: rest =>
      match m.find t with
      | some r => r.1.or (recordedBitmapUnion m rest)
      | Option.none => recordedBitmapUnion m rest

/-- The guard of one thread-level kind: `thread_index_along(kind) == 0`. -/
def threadIndexIsZero (k : ParallelType) : KirVal :=
  KirVal.eqExpr (getParallelIndex k) (KirVal.intConst 0)

/-- The left-nested conjunction of a list of expressions onto an optional start. -/
def conjoin : Option KirVal → List KirVal → Option KirVal
  | pred, [] => pred
  | Option.none, e :: rest => conjoin (some e) rest
  | some p, e :: rest => conjoin (some (KirVal.andExpr p e)) rest

/-- The kinds set in a bitmap, in the iteration order of `getMap()`. -/
def setKinds (bits : ParallelTypeBitmap) : List ParallelType :=
  mapOrder.filter (fun k => bits.get k)

/-- The function `getPredicate` with the iteration order over the kinds of the bitmap
as a parameter; `getPredicate` itself is the instance at `mapOrder`. -/
def getPredicateIn (order : List ParallelType) (bits : ParallelTypeBitmap)
    (sources : SourceMapType) : Except Error KirVal :=
  if bits.none then Except.ok (KirVal.boolConst true)
  else
    match getPredicateLoop sources (order.map (fun k => (k, bits.bitset_ k))) Option.none with
    | Except.error e => Except.error e
    | Except.ok Option.none => Except.error Error.nullPredicate
    | Except.ok (some pred) =>
        if pred.getDataType = some DataType.Bool then Except.ok pred
        else Except.error Error.notBoolPredicate

/-- The boolean value of a guard expression in an environment (`false` when the
expression is not boolean-valued). -/
def guardValue (env : Env) (pred : KirVal) : Bool :=
  match pred.eval env with
  | some (RtVal.bool b) => b
  | _ => false

/-- The value of the sub-expression that the guard builder makes for one kind. -/
def kindValue (env : Env) (sources : SourceMapType) (k : ParallelType) : Bool :=
  match sources k with
  | Option.none => false
  | some s =>
      match getPredicatePerParallelType k s with
      | Except.error _ => false
      | Except.ok tp => guardValue env tp

/-- The source function `duplicate(copy, origin)` with the throwing lookups `at(origin)`
kept explicit. -/
def ThreadPredicateMap.duplicateAt (m : ThreadPredicateMap) (copy origin : TensorView) :
    Except Error ThreadPredicateMap :=
  if (m.find origin).isSome then
    match m.at origin with
    | Except.error e => Except.error e
    | Except.ok r => Except.ok (m.insert copy r.1 r.2)
  else Except.ok m

/-- The map states built by the pass: the constructor's input initialisation, followed
by successful `updateBitSet` calls and `duplicate` calls. -/
inductive Reachable : ThreadPredicateMap → Prop where
  | inputs (l : List Val) : Reachable (insertInputs l ThreadPredicateMap.init)
  | update (m : ThreadPredicateMap) (expr : Expr) (hm : Reachable m)
      (hok : (m.updateBitSet expr).1 = Except.ok ()) : Reachable (m.updateBitSet expr).2
  | duplicate (m : ThreadPredicateMap) (copy origin : TensorView) (hm : Reachable m) :
      Reachable (m.duplicate copy origin)

/-- The output bitmap as the spec words it: the plain set difference
`(input_preds ∪ input_reductions) \ input_bcasts`. -/
def setDifferencePreds (acc : InputAcc) : ParallelTypeBitmap :=
  (acc.input_preds.or acc.input_reductions).and acc.input_bcasts.not

/-! ## Concrete tensors, operations and maps used as test inputs -/

/-- A dimension that is a reduction parallelized on `k`. -/
def redDim (k : ParallelType) : IterDomain := ⟨true, k, true, false⟩

/-- A dimension that is a broadcast parallelized on `k`. -/
def bcastDim (k : ParallelType) : IterDomain := ⟨true, k, false, true⟩

/-- A dimension that is not thread-parallelized. -/
def serialDim : IterDomain := ⟨false, ParallelType.TIDx, false, false⟩

/-- The bitmap with exactly the bit of `k` set. -/
def singleBit (k : ParallelType) : ParallelTypeBitmap :=
  ParallelTypeBitmap.empty.set k true

/-- The source map with the single entry `k ↦ srcs`. -/
def singleSource (k : ParallelType) (srcs : Finset TensorView) : SourceMapType :=
  fun k1 => if k1 = k then some srcs else Option.none

/-- A tensor without parallelized dimensions. -/
def tvPlain (n : Nat) : TensorView := ⟨n, [serialDim]⟩

/-- A tensor with one reduction dimension parallelized on `k`. -/
def tvRed (n : Nat) (k : ParallelType) : TensorView := ⟨n, [redDim k]⟩

/-- A tensor with one broadcast dimension parallelized on `k`. -/
def tvBcast (n : Nat) (k : ParallelType) : TensorView := ⟨n, [bcastDim k]⟩

/-- The operation with tensor inputs `ins` and tensor outputs `outs`. -/
def tvExpr (ins outs : List TensorView) : Expr :=
  ⟨ins.map Val.tv, outs.map Val.tv⟩

/-- The map with empty records for the given tensors. -/
def mapOfInputs (ts : List TensorView) : ThreadPredicateMap :=
  insertInputs (ts.map Val.tv) ThreadPredicateMap.init

/-- A tensor with a reduction dimension and a broadcast dimension, both parallelized
on `k`. -/
def tvRedBcast (n : Nat) (k : ParallelType) : TensorView := ⟨n, [redDim k, bcastDim k]⟩

/-- The map the pass builds for the graph `0 → 1 (reduction on TIDx) → 2` and
`3 → 4 (reduction on TIDx)` with fusion inputs 0 and 3: tensor 2 inherits the guard on
`TIDx` with source tensor 1, tensor 4 has an empty record. -/
def twoReductionsMap : ThreadPredicateMap :=
  ((((mapOfInputs [tvPlain 0, tvPlain 3]).updateBitSet
      (tvExpr [tvPlain 0] [tvRed 1 ParallelType.TIDx])).2.updateBitSet
      (tvExpr [tvRed 1 ParallelType.TIDx] [tvPlain 2])).2.updateBitSet
      (tvExpr [tvPlain 3] [tvRed 4 ParallelType.TIDx])).2

/-- The reduce-then-broadcast chain `a → b → c` with the dimensions on the produced
tensors: `a = tvPlain 0` is the fusion input, `b = tvRed 1 TIDx` carries the reduction
dimension, `c = tvBcast 2 TIDx` carries the broadcast dimension. -/
def chainOnOutputs : Fusion :=
  ⟨[Val.tv (tvPlain 0)],
   [tvExpr [tvPlain 0] [tvRed 1 ParallelType.TIDx],
    tvExpr [tvRed 1 ParallelType.TIDx] [tvBcast 2 ParallelType.TIDx]]⟩

/-- The reduce-then-broadcast chain `a → b → c` with the dimensions on the consumed
tensors: the fusion input `a = tvRed 0 TIDx` carries the reduction dimension,
`b = tvBcast 1 TIDx` carries the broadcast dimension, `c = tvPlain 2`. -/
def chainOnInputs : Fusion :=
  ⟨[Val.tv (tvRed 0 ParallelType.TIDx)],
   [tvExpr [tvRed 0 ParallelType.TIDx] [tvBcast 1 ParallelType.TIDx],
    tvExpr [tvBcast 1 ParallelType.TIDx] [tvPlain 2]]⟩

/-- The map the pass builds for two reductions on `BIDx` (tensors 1 and 4, made from the
fusion inputs 0 and 3) that are combined into tensor 5, which so holds two sources for
`BIDx`. -/
def twoBlockSourcesMap : ThreadPredicateMap :=
  ((((mapOfInputs [tvPlain 0, tvPlain 3]).updateBitSet
      (tvExpr [tvPlain 0] [tvRed 1 ParallelType.BIDx])).2.updateBitSet
      (tvExpr [tvPlain 3] [tvRed 4 ParallelType.BIDx])).2.updateBitSet
      (tvExpr [tvRed 1 ParallelType.BIDx, tvRed 4 ParallelType.BIDx] [tvPlain 5])).2

/-! # Theorems -/

/-! ## Bitmaps, pointwise -/

@[simp] theorem ParallelTypeBitmap.get_empty (k : ParallelType) :
    ParallelTypeBitmap.empty.get k = false := rfl

@[simp] theorem ParallelTypeBitmap.get_or (a b : ParallelTypeBitmap) (k : ParallelType) :
    (a.or b).get k = (a.get k || b.get k) := rfl

@[simp] theorem ParallelTypeBitmap.get_and (a b : ParallelTypeBitmap) (k : ParallelType) :
    (a.and b).get k = (a.get k && b.get k) := rfl

@[simp] theorem ParallelTypeBitmap.get_not (a : ParallelTypeBitmap) (k : ParallelType) :
    a.not.get k = !a.get k := rfl

theorem ParallelTypeBitmap.get_set (a : ParallelTypeBitmap) (pt k : ParallelType) (v : Bool) :
    (a.set pt v).get k = if k = pt then v else a.get k := rfl

theorem ParallelTypeBitmap.ext_get {a b : ParallelTypeBitmap}
    (h : ∀ k, a.get k = b.get k) : a = b := by
  cases a with
  | mk f =>
    cases b with
    | mk g =>
      have hfg : f = g := funext h
      rw [hfg]

theorem ParallelTypeBitmap.none_iff (b : ParallelTypeBitmap) :
    b.none = true ↔ ∀ k, b.get k = false := by
  constructor
  · intro h k
    simp [ParallelTypeBitmap.none, offsetOrder] at h
    cases k <;> simp [ParallelTypeBitmap.get, h]
  · intro h
    simp only [ParallelTypeBitmap.get] at h
    simp [ParallelTypeBitmap.none, offsetOrder, h]

theorem ParallelTypeBitmap.any_iff (b : ParallelTypeBitmap) :
    b.any = true ↔ ∃ k, b.get k = true := by
  constructor
  · intro h
    simp [ParallelTypeBitmap.any, offsetOrder] at h
    rcases h with h | h | h | h | h | h <;> exact ⟨_, h⟩
  · rintro ⟨k, hk⟩
    simp only [ParallelTypeBitmap.get] at hk
    cases k <;> simp [ParallelTypeBitmap.any, offsetOrder, hk]

/-! ## Source maps, pointwise -/

theorem mem_mapOrder (k : ParallelType) : k ∈ mapOrder := by
  cases k <;> simp [mapOrder]

theorem nodup_mapOrder : mapOrder.Nodup := by
  simp [mapOrder]

theorem mem_offsetOrder (k : ParallelType) : k ∈ offsetOrder := by
  cases k <;> simp [offsetOrder]

/-- A fold that rewrites one key per step, over distinct keys, acts pointwise. -/
theorem foldl_keywise (f : SourceMapType → ParallelType → SourceMapType)
    (upd : ParallelType → Option (Finset TensorView) → Option (Finset TensorView))
    (hf : ∀ d key k, f d key k = if k = key then upd key (d k) else d k)
    (l : List ParallelType) (hl : l.Nodup) (dst : SourceMapType) (k : ParallelType) :
    l.foldl f dst k = if k ∈ l then upd k (dst k) else dst k := by
  induction l generalizing dst with
  | nil => simp
  | cons a t ih =>
    rw [List.nodup_cons] at hl
    rw [List.foldl_cons, ih hl.2, hf]
    by_cases hka : k = a
    · subst hka
      simp [hl.1]
    · by_cases hkt : k ∈ t
      · simp [hka, hkt]
      · simp [hka, hkt]

theorem mergeSourceMap_apply (dst src : SourceMapType) (k : ParallelType) :
    mergeSourceMap dst src k =
      match src k with
      | Option.none => dst k
      | some s => some ((dst k).getD ∅ ∪ s) := by
  unfold mergeSourceMap
  rw [foldl_keywise _
    (fun key o => match src key with
      | Option.none => o
      | some s => some (o.getD ∅ ∪ s)) _ _ nodup_mapOrder]
  · simp [mem_mapOrder]
  · intro d key k'
    cases hs : src key with
    | none => simp [hs]
    | some v =>
      by_cases h : k' = key
      · simp [SourceMapType.modify, h, hs]
      · simp [SourceMapType.modify, h, hs]

theorem addToSouceMap_apply (dst : SourceMapType) (tv : TensorView)
    (red : ParallelTypeBitmap) (k : ParallelType) :
    addToSouceMap dst tv red k =
      if red.get k then some (insert tv ((dst k).getD ∅)) else dst k := by
  unfold addToSouceMap ParallelTypeBitmap.getMap
  rw [List.foldl_map, foldl_keywise _
    (fun key o => if red.bitset_ key then some (insert tv (o.getD ∅)) else o) _ _
    nodup_mapOrder]
  · simp [mem_mapOrder, ParallelTypeBitmap.get]
  · intro d key k'
    cases hs : red.bitset_ key with
    | false => simp [hs]
    | true =>
      by_cases h : k' = key
      · simp [SourceMapType.modify, h, hs]
      · simp [SourceMapType.modify, h, hs]

theorem maskSouceMap_apply (src_map : SourceMapType) (mask : ParallelTypeBitmap)
    (k : ParallelType) :
    maskSouceMap src_map mask k = if mask.get k then src_map k else some ∅ := by
  unfold maskSouceMap ParallelTypeBitmap.getMap
  rw [List.foldl_map, foldl_keywise _
    (fun key o => if mask.bitset_ key then o else some ∅) _ _ nodup_mapOrder]
  · simp [mem_mapOrder, ParallelTypeBitmap.get]
  · intro d key k'
    cases hs : mask.bitset_ key with
    | false =>
      by_cases h : k' = key
      · simp [SourceMapType.modify, h, hs]
      · simp [SourceMapType.modify, h, hs]
    | true => simp [hs]

/-! ## The per-input classification -/

theorem classifyStep_reductions (s : IdBits) (id : IterDomain) (k : ParallelType) :
    (classifyStep s id).id_reductions.get k =
      (s.id_reductions.get k ||
        (id.isThread && decide (id.getParallelType = k) && id.isReduction)) := by
  unfold classifyStep
  by_cases hk : id.getParallelType = k
  · subst hk
    cases hT : id.isThread <;> cases hR : id.isReduction <;>
      simp [ParallelTypeBitmap.get_set]
  · have hk2 : ¬ k = id.getParallelType := fun h => hk h.symm
    cases hT : id.isThread <;> cases hR : id.isReduction <;>
      simp [ParallelTypeBitmap.get_set, hk, hk2]

theorem classifyStep_bcasts (s : IdBits) (id : IterDomain) (k : ParallelType) :
    (classifyStep s id).id_bcasts.get k =
      (s.id_bcasts.get k ||
        (id.isThread && decide (id.getParallelType = k) && id.isBroadcast)) := by
  unfold classifyStep
  by_cases hk : id.getParallelType = k
  · subst hk
    cases hT : id.isThread <;> cases hR : id.isBroadcast <;>
      simp [ParallelTypeBitmap.get_set]
  · have hk2 : ¬ k = id.getParallelType := fun h => hk h.symm
    cases hT : id.isThread <;> cases hR : id.isBroadcast <;>
      simp [ParallelTypeBitmap.get_set, hk, hk2]

theorem classifyStep_ptypes (s : IdBits) (id : IterDomain) (k : ParallelType) :
    (classifyStep s id).id_ptypes.get k =
      (s.id_ptypes.get k || (id.isThread && decide (id.getParallelType = k))) := by
  unfold classifyStep
  by_cases hk : id.getParallelType = k
  · subst hk
    cases hT : id.isThread <;> simp [ParallelTypeBitmap.get_set]
  · have hk2 : ¬ k = id.getParallelType := fun h => hk h.symm
    cases hT : id.isThread <;> simp [ParallelTypeBitmap.get_set, hk, hk2]

theorem foldl_classifyStep (d : List IterDomain) (s : IdBits) (k : ParallelType) :
    (d.foldl classifyStep s).id_reductions.get k =
        (s.id_reductions.get k ||
          d.any (fun id => id.isThread && decide (id.getParallelType = k) && id.isReduction)) ∧
    (d.foldl classifyStep s).id_bcasts.get k =
        (s.id_bcasts.get k ||
          d.any (fun id => id.isThread && decide (id.getParallelType = k) && id.isBroadcast)) ∧
    (d.foldl classifyStep s).id_ptypes.get k =
        (s.id_ptypes.get k ||
          d.any (fun id => id.isThread && decide (id.getParallelType = k))) := by
  induction d generalizing s with
  | nil => simp
  | cons a t ih =>
    rw [List.foldl_cons]
    obtain ⟨h1, h2, h3⟩ := ih (classifyStep s a)
    rw [h1, h2, h3, classifyStep_reductions, classifyStep_bcasts, classifyStep_ptypes]
    simp [List.any_cons, Bool.or_assoc]

theorem classifyDomain_reductions (t : TensorView) (k : ParallelType) :
    (classifyDomain t.domain).id_reductions.get k = t.reductionOn k := by
  unfold classifyDomain TensorView.reductionOn
  rw [(foldl_classifyStep t.domain _ k).1]
  simp

theorem classifyDomain_bcasts (t : TensorView) (k : ParallelType) :
    (classifyDomain t.domain).id_bcasts.get k = t.broadcastOn k := by
  unfold classifyDomain TensorView.broadcastOn
  rw [(foldl_classifyStep t.domain _ k).2.1]
  simp

theorem classifyDomain_ptypes (t : TensorView) (k : ParallelType) :
    (classifyDomain t.domain).id_ptypes.get k = t.parallelOn k := by
  unfold classifyDomain TensorView.parallelOn
  rw [(foldl_classifyStep t.domain _ k).2.2]
  simp

theorem TensorView.reductionOn_parallelOn {t : TensorView} {k : ParallelType}
    (h : t.reductionOn k = true) : t.parallelOn k = true := by
  unfold TensorView.reductionOn at h
  unfold TensorView.parallelOn
  rw [List.any_eq_true] at h ⊢
  obtain ⟨id, hid, hp⟩ := h
  refine ⟨id, hid, ?_⟩
  simp only [Bool.and_eq_true] at hp ⊢
  exact hp.1

theorem TensorView.broadcastOn_parallelOn {t : TensorView} {k : ParallelType}
    (h : t.broadcastOn k = true) : t.parallelOn k = true := by
  unfold TensorView.broadcastOn at h
  unfold TensorView.parallelOn
  rw [List.any_eq_true] at h ⊢
  obtain ⟨id, hid, hp⟩ := h
  refine ⟨id, hid, ?_⟩
  simp only [Bool.and_eq_true] at hp ⊢
  exact hp.1

/-! ## The input loop -/

theorem sourcesOf_def (s : SourceMapType) (k : ParallelType) :
    s.sourcesOf k = (s k).getD ∅ := rfl

theorem processInput_scalar (m : ThreadPredicateMap) (acc : InputAcc) (n : Nat) :
    processInput m acc (Val.scalar n) = Except.ok acc := rfl

/-- What a successful iteration on a tensor input does to the locals. -/
theorem processInput_tv {m : ThreadPredicateMap} {acc acc1 : InputAcc} {t : TensorView}
    (h : processInput m acc (Val.tv t) = Except.ok acc1) :
    ∃ r, m.find t = some r ∧
      validateCombination acc.input_reductions (classifyDomain t.domain) offsetOrder
        = Except.ok () ∧
      acc1.input_preds = acc.input_preds.or r.1 ∧
      (∀ k, acc1.input_reductions.get k = (acc.input_reductions.get k || t.reductionOn k)) ∧
      (∀ k, acc1.input_bcasts.get k = (acc.input_bcasts.get k || t.broadcastOn k)) ∧
      (∀ k, acc1.src_map k =
        if t.reductionOn k then
          some (insert t ((mergeSourceMap acc.src_map r.2 k).getD ∅))
        else mergeSourceMap acc.src_map r.2 k) := by
  unfold processInput at h
  cases hf : m.find t with
  | none => simp [hf] at h
  | some r =>
    simp only [hf] at h
    cases hv : validateCombination acc.input_reductions (classifyDomain t.domain) offsetOrder with
    | error e => simp [hv] at h
    | ok u =>
      simp only [hv] at h
      injection h with h
      subst h
      refine ⟨r, rfl, rfl, rfl, ?_, ?_, ?_⟩
      · intro k
        simp [classifyDomain_reductions]
      · intro k
        simp [classifyDomain_bcasts]
      · intro k
        by_cases hany : (classifyDomain t.domain).id_reductions.any = true
        · simp only [hany, if_true]
          rw [addToSouceMap_apply, classifyDomain_reductions]
        · simp only [hany]
          have hk : t.reductionOn k = false := by
            rw [← classifyDomain_reductions]
            cases hb : (classifyDomain t.domain).id_reductions.get k with
            | false => rfl
            | true =>
              exact absurd ((ParallelTypeBitmap.any_iff _).mpr ⟨k, hb⟩) hany
          simp [hk]

theorem tensorViews_cons_tv (t : TensorView) (l : List Val) :
    tensorViews (Val.tv t :: l) = t :: tensorViews l := rfl

theorem tensorViews_cons_scalar (n : Nat) (l : List Val) :
    tensorViews (Val.scalar n :: l) = tensorViews l := rfl

/-- Closed form of the locals after a successful input loop. -/
theorem inputLoop_ok {m : ThreadPredicateMap} (l : List Val) {acc acc1 : InputAcc}
    (h : inputLoop m l acc = Except.ok acc1) :
    (∀ t ∈ tensorViews l, ∃ r, m.find t = some r) ∧
    (∀ k, acc1.input_preds.get k = true ↔
      acc.input_preds.get k = true ∨
        ∃ t ∈ tensorViews l, ∃ r, m.find t = some r ∧ r.1.get k = true) ∧
    (∀ k, acc1.input_reductions.get k = true ↔
      acc.input_reductions.get k = true ∨ ∃ t ∈ tensorViews l, t.reductionOn k = true) ∧
    (∀ k, acc1.input_bcasts.get k = true ↔
      acc.input_bcasts.get k = true ∨ ∃ t ∈ tensorViews l, t.broadcastOn k = true) ∧
    (∀ k u, u ∈ acc1.src_map.sourcesOf k ↔
      u ∈ acc.src_map.sourcesOf k ∨
        (∃ t ∈ tensorViews l, ∃ r, m.find t = some r ∧ u ∈ r.2.sourcesOf k) ∨
        (u ∈ tensorViews l ∧ u.reductionOn k = true)) := by
  induction l generalizing acc with
  | nil =>
    simp only [inputLoop] at h
    injection h with h
    subst h
    simp [tensorViews]
  | cons inp rest ih =>
    cases inp with
    | scalar n =>
      simp only [inputLoop, processInput_scalar] at h
      simpa [tensorViews_cons_scalar] using ih h
    | tv t =>
      simp only [inputLoop] at h
      cases hp : processInput m acc (Val.tv t) with
      | error e => simp [hp] at h
      | ok acc2 =>
        simp only [hp] at h
        obtain ⟨r, hr, _, hpreds, hred, hbc, hsrc⟩ := processInput_tv hp
        obtain ⟨i1, i2, i3, i4, i5⟩ := ih h
        rw [tensorViews_cons_tv]
        refine ⟨?_, ?_, ?_, ?_, ?_⟩
        · intro t1 ht1
          rcases List.mem_cons.mp ht1 with h1 | h1
          · exact ⟨r, h1 ▸ hr⟩
          · exact i1 t1 h1
        · intro k
          rw [i2 k, hpreds]
          simp only [ParallelTypeBitmap.get_or, Bool.or_eq_true, List.mem_cons,
            exists_eq_or_imp]
          constructor
          · rintro ((h1 | h1) | h1)
            · exact Or.inl h1
            · exact Or.inr (Or.inl ⟨r, hr, h1⟩)
            · exact Or.inr (Or.inr h1)
          · rintro (h1 | ⟨r1, hr1, h1⟩ | h1)
            · exact Or.inl (Or.inl h1)
            · rw [hr] at hr1
              injection hr1 with hr1
              subst hr1
              exact Or.inl (Or.inr h1)
            · exact Or.inr h1
        · intro k
          rw [i3 k, hred k]
          simp only [Bool.or_eq_true, List.mem_cons, exists_eq_or_imp]
          tauto
        · intro k
          rw [i4 k, hbc k]
          simp only [Bool.or_eq_true, List.mem_cons, exists_eq_or_imp]
          tauto
        · intro k u
          rw [i5 k u]
          have hstep : u ∈ acc2.src_map.sourcesOf k ↔
              u ∈ acc.src_map.sourcesOf k ∨ u ∈ r.2.sourcesOf k ∨
                (u = t ∧ t.reductionOn k = true) := by
            simp only [sourcesOf_def, hsrc k, mergeSourceMap_apply]
            cases hrk : r.2 k <;> cases hak : acc.src_map k <;>
              cases hred1 : t.reductionOn k <;> simp <;> tauto
          rw [hstep]
          simp only [List.mem_cons, exists_eq_or_imp]
          constructor
          · rintro ((h1 | h1 | ⟨h1, h2⟩) | h1 | ⟨h1, h2⟩)
            · exact Or.inl h1
            · exact Or.inr (Or.inl (Or.inl ⟨r, hr, h1⟩))
            · exact Or.inr (Or.inr ⟨Or.inl h1, h1 ▸ h2⟩)
            · exact Or.inr (Or.inl (Or.inr h1))
            · exact Or.inr (Or.inr ⟨Or.inr h1, h2⟩)
          · rintro (h1 | (⟨r1, hr1, h1⟩ | h1) | ⟨h1 | h1, h2⟩)
            · exact Or.inl (Or.inl h1)
            · rw [hr] at hr1
              injection hr1 with hr1
              subst hr1
              exact Or.inl (Or.inr (Or.inl h1))
            · exact Or.inr (Or.inl h1)
            · exact Or.inl (Or.inr (Or.inr ⟨h1, h1 ▸ h2⟩))
            · exact Or.inr (Or.inr ⟨h1, h2⟩)

/-! ## insert, the output loop and updateBitSet -/

theorem ThreadPredicateMap.find_insert_of_some {m : ThreadPredicateMap} {t : TensorView}
    {r : PredAndSource} (h : m.find t = some r) (tv : TensorView)
    (pred : ParallelTypeBitmap) (src_map : SourceMapType) :
    (m.insert tv pred src_map).find t = some r := by
  unfold ThreadPredicateMap.insert
  unfold ThreadPredicateMap.find at h ⊢
  cases htv : m.thread_predicates_ tv with
  | some r1 => simpa using h
  | none =>
    have hne : t ≠ tv := by
      intro he
      rw [he, htv] at h
      exact Option.noConfusion h
    simp [hne, h]

theorem ThreadPredicateMap.find_insert_self {m : ThreadPredicateMap} {tv : TensorView}
    (h : m.find tv = Option.none) (pred : ParallelTypeBitmap) (src_map : SourceMapType) :
    (m.insert tv pred src_map).find tv = some (pred, src_map) := by
  unfold ThreadPredicateMap.insert
  unfold ThreadPredicateMap.find at h ⊢
  simp [h]

theorem ThreadPredicateMap.find_insert_of_ne (m : ThreadPredicateMap) {t tv : TensorView}
    (hne : t ≠ tv) (pred : ParallelTypeBitmap) (src_map : SourceMapType) :
    (m.insert tv pred src_map).find t = m.find t := by
  unfold ThreadPredicateMap.insert ThreadPredicateMap.find
  cases htv : m.thread_predicates_ tv with
  | some r1 => rfl
  | none => simp [hne]

theorem ThreadPredicateMap.find_duplicate_of_some {m : ThreadPredicateMap} {t : TensorView}
    {r : PredAndSource} (h : m.find t = some r) (copy origin : TensorView) :
    (m.duplicate copy origin).find t = some r := by
  unfold ThreadPredicateMap.duplicate
  cases ho : m.find origin with
  | none => simpa using h
  | some ro => exact ThreadPredicateMap.find_insert_of_some h _ _ _

/-- The output loop never changes an existing record, whether it fails or not. -/
theorem outputLoop_find_of_some (p : ParallelTypeBitmap) (s : SourceMapType)
    (outs : List Val) {m : ThreadPredicateMap} {t : TensorView} {r : PredAndSource}
    (h : m.find t = some r) : (outputLoop p s outs m).2.find t = some r := by
  induction outs generalizing m with
  | nil => simpa [outputLoop] using h
  | cons out rest ih =>
    cases out with
    | scalar n =>
      simp only [outputLoop]
      exact ih h
    | tv tv_out =>
      simp only [outputLoop]
      cases hf : m.find tv_out with
      | some r1 => simpa using h
      | none =>
        simp only
        exact ih (ThreadPredicateMap.find_insert_of_some h _ _ _)

/-- After a successful output loop every tensor output holds the inserted record. -/
theorem outputLoop_ok (p : ParallelTypeBitmap) (s : SourceMapType)
    (outs : List Val) {m : ThreadPredicateMap}
    (h : (outputLoop p s outs m).1 = Except.ok ()) :
    ∀ t ∈ tensorViews outs, (outputLoop p s outs m).2.find t = some (p, s) := by
  induction outs generalizing m with
  | nil => simp [tensorViews]
  | cons out rest ih =>
    cases out with
    | scalar n =>
      simp only [outputLoop, tensorViews_cons_scalar] at h ⊢
      exact ih h
    | tv tv_out =>
      simp only [outputLoop, tensorViews_cons_tv] at h ⊢
      cases hf : m.find tv_out with
      | some r1 => simp [hf] at h
      | none =>
        simp only [hf] at h ⊢
        intro t ht
        rcases List.mem_cons.mp ht with h1 | h1
        · subst h1
          exact outputLoop_find_of_some p s rest
            (ThreadPredicateMap.find_insert_self hf p s)
        · exact ih h t h1

/-- The records of tensors that are not outputs are untouched by the output loop. -/
theorem outputLoop_find_of_not_mem (p : ParallelTypeBitmap) (s : SourceMapType)
    (outs : List Val) (m : ThreadPredicateMap) {t : TensorView}
    (h : t ∉ tensorViews outs) : (outputLoop p s outs m).2.find t = m.find t := by
  induction outs generalizing m with
  | nil => simp [outputLoop]
  | cons out rest ih =>
    cases out with
    | scalar n =>
      simp only [outputLoop, tensorViews_cons_scalar] at h ⊢
      exact ih m h
    | tv tv_out =>
      simp only [outputLoop, tensorViews_cons_tv, List.mem_cons, not_or] at h ⊢
      cases hf : m.find tv_out with
      | some r1 => rfl
      | none =>
        simp only
        rw [ih _ h.2]
        exact ThreadPredicateMap.find_insert_of_ne m h.1 p s

/-- A successful `updateBitSet` ran the input loop to the end and gave every tensor
output the record computed from its locals. -/
theorem updateBitSet_ok {m : ThreadPredicateMap} {expr : Expr}
    (h : (m.updateBitSet expr).1 = Except.ok ()) :
    ∃ acc, inputLoop m expr.inputs InputAcc.init = Except.ok acc ∧
      ∀ t ∈ tensorViews expr.outputs,
        (m.updateBitSet expr).2.find t = some (outputPreds acc, outputSrcMap acc) := by
  unfold ThreadPredicateMap.updateBitSet at h ⊢
  cases hl : inputLoop m expr.inputs InputAcc.init with
  | error e => simp [hl] at h
  | ok acc =>
    simp only [hl] at h ⊢
    exact ⟨acc, rfl, outputLoop_ok _ _ _ h⟩

/-- The call `updateBitSet` never changes an existing record, whether it fails or not. -/
theorem updateBitSet_find_of_some (m : ThreadPredicateMap) (expr : Expr) {t : TensorView}
    {r : PredAndSource} (h : m.find t = some r) :
    (m.updateBitSet expr).2.find t = some r := by
  unfold ThreadPredicateMap.updateBitSet
  cases hl : inputLoop m expr.inputs InputAcc.init with
  | error e => simpa using h
  | ok acc => exact outputLoop_find_of_some _ _ _ h

theorem outputPreds_get (acc : InputAcc) (k : ParallelType) :
    (outputPreds acc).get k =
      ((acc.input_preds.get k || acc.input_reductions.get k) && !acc.input_bcasts.get k) := by
  simp only [outputPreds, bcastResetMap, preResetOutputPreds, ParallelTypeBitmap.get_and,
    ParallelTypeBitmap.get_or, ParallelTypeBitmap.get_not]
  cases acc.input_preds.get k <;> cases acc.input_reductions.get k <;>
    cases acc.input_bcasts.get k <;> rfl

theorem outputSrcMap_apply (acc : InputAcc) (k : ParallelType) :
    outputSrcMap acc k =
      if (preResetOutputPreds acc).get k && acc.input_bcasts.get k then some ∅
      else acc.src_map k := by
  unfold outputSrcMap
  rw [maskSouceMap_apply]
  simp only [bcastResetMap, ParallelTypeBitmap.get_not, ParallelTypeBitmap.get_and]
  by_cases hb : ((preResetOutputPreds acc).get k && acc.input_bcasts.get k) = true
  · simp [hb]
  · simp [hb]

/-! ## Properties of updateBitSet -/

/-- C1 (broadcast cancellation): if `updateBitSet` succeeds, kind `K` is in the pre-reset
`output_preds` (some tensor input has `K` in its recorded bitmap, or some tensor input
has a thread-parallelized reduction dimension of kind `K`) and `K` is a
thread-parallelized broadcast kind of some tensor input, then the record inserted for
every tensor output has `K` absent from the bitmap and the empty source set for `K`. -/
theorem updateBitSet_broadcast_cancellation (m : ThreadPredicateMap) (expr : Expr)
    (K : ParallelType)
    (hok : (m.updateBitSet expr).1 = Except.ok ())
    (hpre : (∃ t ∈ tensorViews expr.inputs, ∃ r, m.find t = some r ∧ r.1.get K = true) ∨
      (∃ t ∈ tensorViews expr.inputs, t.reductionOn K = true))
    (hbc : ∃ t ∈ tensorViews expr.inputs, t.broadcastOn K = true) :
    ∀ out ∈ tensorViews expr.outputs,
      ∃ r, (m.updateBitSet expr).2.find out = some r ∧
        r.1.get K = false ∧ r.2 K = some ∅ := by
  obtain ⟨acc, hacc, hout⟩ := updateBitSet_ok hok
  obtain ⟨_, hp, hr, hb, _⟩ := inputLoop_ok expr.inputs hacc
  have hbK : acc.input_bcasts.get K = true := (hb K).mpr (Or.inr hbc)
  have hpreK : (preResetOutputPreds acc).get K = true := by
    simp only [preResetOutputPreds, ParallelTypeBitmap.get_or, Bool.or_eq_true]
    rcases hpre with h | h
    · exact Or.inl ((hp K).mpr (Or.inr h))
    · exact Or.inr ((hr K).mpr (Or.inr h))
  intro out ho
  refine ⟨_, hout out ho, ?_, ?_⟩
  · simp [outputPreds_get, hbK]
  · simp [outputSrcMap_apply, hbK, hpreK]

/-- Witness for C1: a tensor with record `({TIDx}, TIDx ↦ {tensor 0})` and a broadcast
dimension on `TIDx` is consumed; the output loses `TIDx` and its sources. -/
theorem updateBitSet_broadcast_cancellation_witness :
    ((ThreadPredicateMap.init.insert (tvBcast 1 ParallelType.TIDx)
          (singleBit ParallelType.TIDx)
          (singleSource ParallelType.TIDx {tvPlain 0})).updateBitSet
        (tvExpr [tvBcast 1 ParallelType.TIDx] [tvPlain 2])).1 = Except.ok () ∧
    ∀ out ∈ tensorViews (tvExpr [tvBcast 1 ParallelType.TIDx] [tvPlain 2]).outputs,
      ∃ r, ((ThreadPredicateMap.init.insert (tvBcast 1 ParallelType.TIDx)
          (singleBit ParallelType.TIDx)
          (singleSource ParallelType.TIDx {tvPlain 0})).updateBitSet
        (tvExpr [tvBcast 1 ParallelType.TIDx] [tvPlain 2])).2.find out = some r ∧
        r.1.get ParallelType.TIDx = false ∧ r.2 ParallelType.TIDx = some ∅ :=
  ⟨rfl,
   updateBitSet_broadcast_cancellation _ _ ParallelType.TIDx rfl
     (Or.inl ⟨tvBcast 1 ParallelType.TIDx, by decide, _, rfl, rfl⟩)
     ⟨tvBcast 1 ParallelType.TIDx, by decide, rfl⟩⟩

/-- C2, as stated, fails in two ways. (a) The reducing input may itself carry a broadcast
dimension on the same kind: for the single input `tvRedBcast 1 TIDx` the call succeeds and
the output bitmap lacks `TIDx`. (b) Sources already recorded for the kind are inherited:
with inputs tensor 2 (record `{TIDx}` with source tensor 1, no dimension parallelized on
`TIDx`) and tensor 4 (reduction on `TIDx`) the output has two sources for `TIDx`. -/
theorem single_reduction_input_counterexample :
    (((mapOfInputs [tvRedBcast 1 ParallelType.TIDx]).updateBitSet
        (tvExpr [tvRedBcast 1 ParallelType.TIDx] [tvPlain 2])).1 = Except.ok () ∧
      tvRedBcast 1 ParallelType.TIDx ∈
        tensorViews (tvExpr [tvRedBcast 1 ParallelType.TIDx] [tvPlain 2]).inputs ∧
      (tvRedBcast 1 ParallelType.TIDx).reductionOn ParallelType.TIDx = true ∧
      (∀ u ∈ tensorViews (tvExpr [tvRedBcast 1 ParallelType.TIDx] [tvPlain 2]).inputs,
        u ≠ tvRedBcast 1 ParallelType.TIDx → u.parallelOn ParallelType.TIDx = false) ∧
      (((mapOfInputs [tvRedBcast 1 ParallelType.TIDx]).updateBitSet
        (tvExpr [tvRedBcast 1 ParallelType.TIDx] [tvPlain 2])).2.find (tvPlain 2)).map
          (fun r => r.1.get ParallelType.TIDx) = some false) ∧
    ((twoReductionsMap.updateBitSet
        (tvExpr [tvPlain 2, tvRed 4 ParallelType.TIDx] [tvPlain 5])).1 = Except.ok () ∧
      tvRed 4 ParallelType.TIDx ∈
        tensorViews (tvExpr [tvPlain 2, tvRed 4 ParallelType.TIDx] [tvPlain 5]).inputs ∧
      (tvRed 4 ParallelType.TIDx).reductionOn ParallelType.TIDx = true ∧
      (∀ u ∈ tensorViews (tvExpr [tvPlain 2, tvRed 4 ParallelType.TIDx] [tvPlain 5]).inputs,
        u ≠ tvRed 4 ParallelType.TIDx → u.parallelOn ParallelType.TIDx = false) ∧
      ((twoReductionsMap.updateBitSet
        (tvExpr [tvPlain 2, tvRed 4 ParallelType.TIDx] [tvPlain 5])).2.find (tvPlain 5)).map
          (fun r => (r.2.sourcesOf ParallelType.TIDx).card) = some 2) := by
  refine ⟨⟨rfl, ?_, ?_, ?_, ?_⟩, ⟨rfl, ?_, ?_, ?_, ?_⟩⟩ <;> decide

/-- C2, amended: if `updateBitSet` succeeds, tensor input `t` has a thread-parallelized
reduction dimension of kind `K` and no broadcast dimension parallelized on `K`, and no
other tensor input has a dimension parallelized on `K`, then the record inserted for
every tensor output has `K` in its bitmap, and its source set for `K` is `t` together
with the sources the tensor inputs' records hold for `K`; it is exactly `{t}` when those
records hold no source for `K` other than `t`. -/
theorem updateBitSet_single_reduction_input (m : ThreadPredicateMap) (expr : Expr)
    (K : ParallelType) (t : TensorView)
    (hok : (m.updateBitSet expr).1 = Except.ok ())
    (ht : t ∈ tensorViews expr.inputs)
    (hred : t.reductionOn K = true)
    (hnobc : t.broadcastOn K = false)
    (hothers : ∀ u ∈ tensorViews expr.inputs, u ≠ t → u.parallelOn K = false) :
    ∀ out ∈ tensorViews expr.outputs,
      ∃ r s, (m.updateBitSet expr).2.find out = some r ∧
        r.1.get K = true ∧ r.2 K = some s ∧
        (∀ u, u ∈ s ↔ u = t ∨
          ∃ t1 ∈ tensorViews expr.inputs, ∃ r1, m.find t1 = some r1 ∧ u ∈ r1.2.sourcesOf K) ∧
        ((∀ t1 ∈ tensorViews expr.inputs, ∀ r1, m.find t1 = some r1 →
            r1.2.sourcesOf K ⊆ {t}) → s = {t}) := by
  obtain ⟨acc, hacc, hout⟩ := updateBitSet_ok hok
  obtain ⟨_, _, hr, hb, hs⟩ := inputLoop_ok expr.inputs hacc
  have hredK : acc.input_reductions.get K = true := (hr K).mpr (Or.inr ⟨t, ht, hred⟩)
  have hbK : acc.input_bcasts.get K = false := by
    cases hv : acc.input_bcasts.get K with
    | false => rfl
    | true =>
      rcases (hb K).mp hv with h | ⟨u, hu, hub⟩
      · simp [InputAcc.init] at h
      · by_cases hut : u = t
        · rw [hut, hnobc] at hub
          exact Bool.noConfusion hub
        · have := hothers u hu hut
          rw [TensorView.broadcastOn_parallelOn hub] at this
          exact Bool.noConfusion this
  have hmem : ∀ u, u ∈ acc.src_map.sourcesOf K ↔ u = t ∨
      ∃ t1 ∈ tensorViews expr.inputs, ∃ r1, m.find t1 = some r1 ∧ u ∈ r1.2.sourcesOf K := by
    intro u
    rw [hs K u]
    constructor
    · rintro (h | h | ⟨h1, h2⟩)
      · simp [InputAcc.init, SourceMapType.sourcesOf, SourceMapType.empty] at h
      · exact Or.inr h
      · by_cases hut : u = t
        · exact Or.inl hut
        · have := hothers u h1 hut
          rw [TensorView.reductionOn_parallelOn h2] at this
          exact Bool.noConfusion this
    · rintro (h | h)
      · exact Or.inr (Or.inr ⟨h ▸ ht, h ▸ hred⟩)
      · exact Or.inr (Or.inl h)
  have hkey : acc.src_map K = some (acc.src_map.sourcesOf K) := by
    have htm : t ∈ acc.src_map.sourcesOf K := (hmem t).mpr (Or.inl rfl)
    unfold SourceMapType.sourcesOf at htm ⊢
    cases hk : acc.src_map K with
    | none => simp [hk] at htm
    | some s => rfl
  intro out ho
  refine ⟨_, acc.src_map.sourcesOf K, hout out ho, ?_, ?_, hmem, ?_⟩
  · simp [outputPreds_get, hredK, hbK]
  · simp [outputSrcMap_apply, hbK, hkey]
  · intro hsub
    apply Finset.ext
    intro u
    rw [hmem u, Finset.mem_singleton]
    constructor
    · rintro (h | ⟨t1, ht1, r1, hr1, hu⟩)
      · exact h
      · exact Finset.mem_singleton.mp (hsub t1 ht1 r1 hr1 hu)
    · intro h
      exact Or.inl h

/-- Witness for amended C2: a fusion input with a reduction dimension on `TIDx` is the
only input. -/
theorem updateBitSet_single_reduction_input_witness :
    ((mapOfInputs [tvRed 1 ParallelType.TIDx]).updateBitSet
        (tvExpr [tvRed 1 ParallelType.TIDx] [tvPlain 2])).1 = Except.ok () ∧
    ∀ out ∈ tensorViews (tvExpr [tvRed 1 ParallelType.TIDx] [tvPlain 2]).outputs,
      ∃ r s, ((mapOfInputs [tvRed 1 ParallelType.TIDx]).updateBitSet
          (tvExpr [tvRed 1 ParallelType.TIDx] [tvPlain 2])).2.find out = some r ∧
        r.1.get ParallelType.TIDx = true ∧ r.2 ParallelType.TIDx = some s ∧
        (∀ u, u ∈ s ↔ u = tvRed 1 ParallelType.TIDx ∨
          ∃ t1 ∈ tensorViews (tvExpr [tvRed 1 ParallelType.TIDx] [tvPlain 2]).inputs,
            ∃ r1, (mapOfInputs [tvRed 1 ParallelType.TIDx]).find t1 = some r1 ∧
              u ∈ r1.2.sourcesOf ParallelType.TIDx) ∧
        ((∀ t1 ∈ tensorViews (tvExpr [tvRed 1 ParallelType.TIDx] [tvPlain 2]).inputs,
            ∀ r1, (mapOfInputs [tvRed 1 ParallelType.TIDx]).find t1 = some r1 →
              r1.2.sourcesOf ParallelType.TIDx ⊆ {tvRed 1 ParallelType.TIDx}) →
          s = {tvRed 1 ParallelType.TIDx}) :=
  ⟨rfl,
   updateBitSet_single_reduction_input _ _ ParallelType.TIDx (tvRed 1 ParallelType.TIDx)
     rfl (by decide) rfl rfl (by decide)⟩

/-- C3, as stated, fails under both placements of the dimensions. With the reduction
dimension on `b` and the broadcast dimension on `c`, the pass gives `b` a bitmap without
`TIDx` and `c` a bitmap with `TIDx`. With the reduction dimension on `a` and the broadcast
dimension on `b`, the source recorded for `TIDx` in the record of `b` is `a`, not `b`. -/
theorem reduce_broadcast_chain_counterexample :
    (∃ m, ThreadPredicateMap.create chainOnOutputs = Except.ok m ∧
      (m.find (tvRed 1 ParallelType.TIDx)).map (fun r => r.1.get ParallelType.TIDx)
        = some false ∧
      (m.find (tvBcast 2 ParallelType.TIDx)).map (fun r => r.1.get ParallelType.TIDx)
        = some true) ∧
    (∃ m, ThreadPredicateMap.create chainOnInputs = Except.ok m ∧
      (m.find (tvBcast 1 ParallelType.TIDx)).map (fun r => r.2 ParallelType.TIDx)
        = some (some {tvRed 0 ParallelType.TIDx}) ∧
      (m.find (tvBcast 1 ParallelType.TIDx)).map (fun r => r.2 ParallelType.TIDx)
        ≠ some (some {tvBcast 1 ParallelType.TIDx})) := by
  refine ⟨⟨_, rfl, ?_, ?_⟩, ⟨_, rfl, ?_, ?_⟩⟩ <;> decide

/-- C3, amended: the pass succeeds on both chains. With the reduction dimension on
operation 1's input `a` and the broadcast dimension on operation 2's input `b`: the bitmap
of `a` is empty; the bitmap of `b` is exactly `{TIDx}` with source set `{a}` for `TIDx`;
the bitmap of `c` does not contain `TIDx` and its source set for `TIDx` is empty. With
the reduction dimension on `b` and the broadcast dimension on `c`: the bitmaps of `a` and
`b` are empty with no source recorded, and the bitmap of `c` is exactly `{TIDx}` with
source set `{b}` for `TIDx`. -/
theorem reduce_broadcast_chain :
    (∃ m ra rb rc, ThreadPredicateMap.create chainOnInputs = Except.ok m ∧
      m.find (tvRed 0 ParallelType.TIDx) = some ra ∧
      m.find (tvBcast 1 ParallelType.TIDx) = some rb ∧
      m.find (tvPlain 2) = some rc ∧
      (∀ k, ra.1.get k = false) ∧
      (∀ k, rb.1.get k = decide (k = ParallelType.TIDx)) ∧
      rb.2 ParallelType.TIDx = some {tvRed 0 ParallelType.TIDx} ∧
      rc.1.get ParallelType.TIDx = false ∧
      rc.2 ParallelType.TIDx = some ∅) ∧
    (∃ m ra rb rc, ThreadPredicateMap.create chainOnOutputs = Except.ok m ∧
      m.find (tvPlain 0) = some ra ∧
      m.find (tvRed 1 ParallelType.TIDx) = some rb ∧
      m.find (tvBcast 2 ParallelType.TIDx) = some rc ∧
      (∀ k, ra.1.get k = false) ∧
      (∀ k, rb.1.get k = false) ∧
      (∀ k, rb.2 k = Option.none) ∧
      (∀ k, rc.1.get k = decide (k = ParallelType.TIDx)) ∧
      rc.2 ParallelType.TIDx = some {tvRed 1 ParallelType.TIDx}) := by
  refine ⟨⟨_, _, _, _, rfl, rfl, rfl, rfl, ?_, ?_, ?_, ?_, ?_⟩,
    ⟨_, _, _, _, rfl, rfl, rfl, rfl, ?_, ?_, ?_, ?_, ?_⟩⟩
  · intro k; cases k <;> rfl
  · intro k; cases k <;> rfl
  · decide
  · rfl
  · decide
  · intro k; cases k <;> rfl
  · intro k; cases k <;> rfl
  · intro k; cases k <;> rfl
  · intro k; cases k <;> rfl
  · decide

/-- The validation loop succeeds exactly when no kind of the list is accumulated as a
reduction, parallelized on the current input, and either not a reduction or a broadcast
there. -/
theorem validateCombination_ok_iff (ir : ParallelTypeBitmap) (ids : IdBits)
    (l : List ParallelType) :
    validateCombination ir ids l = Except.ok () ↔
      ∀ i ∈ l, ir.get i = true → ids.id_ptypes.get i = true →
        ids.id_reductions.get i = true ∧ ids.id_bcasts.get i = false := by
  induction l with
  | nil => simp [validateCombination]
  | cons a t ih =>
    simp only [validateCombination, List.mem_cons, forall_eq_or_imp]
    cases h1 : ir.get a <;> cases h2 : ids.id_ptypes.get a <;>
      cases h3 : ids.id_reductions.get a <;> cases h4 : ids.id_bcasts.get a <;>
      simp [ih]

/-- C4: the check for a kind that is a reduction on one input and a broadcast on another
depends on the input order. With the broadcast input first (`tvBcast 1 TIDx`, then
`tvRed 2 TIDx`, both with records) `updateBitSet` succeeds and silently cancels the
guard on `TIDx`; with the same two inputs in the other order it raises the consistency
error. -/
theorem updateBitSet_broadcast_before_reduction_accepted :
    (((mapOfInputs [tvBcast 1 ParallelType.TIDx, tvRed 2 ParallelType.TIDx]).updateBitSet
        (tvExpr [tvBcast 1 ParallelType.TIDx, tvRed 2 ParallelType.TIDx] [tvPlain 3])).1
        = Except.ok () ∧
      (tvBcast 1 ParallelType.TIDx).parallelOn ParallelType.TIDx = true ∧
      (tvBcast 1 ParallelType.TIDx).broadcastOn ParallelType.TIDx = true ∧
      (tvRed 2 ParallelType.TIDx).parallelOn ParallelType.TIDx = true ∧
      (tvRed 2 ParallelType.TIDx).reductionOn ParallelType.TIDx = true ∧
      (((mapOfInputs [tvBcast 1 ParallelType.TIDx, tvRed 2 ParallelType.TIDx]).updateBitSet
        (tvExpr [tvBcast 1 ParallelType.TIDx, tvRed 2 ParallelType.TIDx] [tvPlain 3])).2.find
          (tvPlain 3)).map (fun r => r.1.get ParallelType.TIDx) = some false) ∧
    ((mapOfInputs [tvBcast 1 ParallelType.TIDx, tvRed 2 ParallelType.TIDx]).updateBitSet
        (tvExpr [tvRed 2 ParallelType.TIDx, tvBcast 1 ParallelType.TIDx] [tvPlain 3])).1
        = Except.error Error.mismatchedReductions := by
  refine ⟨⟨rfl, ?_, ?_, ?_, ?_, ?_⟩, rfl⟩ <;> decide

theorem recordedBitmapUnion_get (m : ThreadPredicateMap) (l : List TensorView)
    (k : ParallelType) :
    (recordedBitmapUnion m l).get k = true ↔
      ∃ t ∈ l, ∃ r, m.find t = some r ∧ r.1.get k = true := by
  induction l with
  | nil => simp [recordedBitmapUnion]
  | cons a t ih =>
    simp only [recordedBitmapUnion, List.mem_cons, exists_eq_or_imp]
    cases hf : m.find a with
    | none => simp [ih]
    | some r => simp [ih]

theorem TensorView.reductionOn_of_no_thread {t : TensorView}
    (h : ∀ id ∈ t.domain, id.isThread = false) (k : ParallelType) :
    t.reductionOn k = false := by
  unfold TensorView.reductionOn
  rw [List.any_eq_false]
  intro id hid
  simp [h id hid]

theorem TensorView.broadcastOn_of_no_thread {t : TensorView}
    (h : ∀ id ∈ t.domain, id.isThread = false) (k : ParallelType) :
    t.broadcastOn k = false := by
  unfold TensorView.broadcastOn
  rw [List.any_eq_false]
  intro id hid
  simp [h id hid]

/-- C5 (pass-through): if `updateBitSet` succeeds and no dimension of any tensor input
is thread-parallelized, the bitmap inserted for every tensor output is exactly the
union of the bitmaps recorded for the tensor inputs. -/
theorem updateBitSet_pass_through (m : ThreadPredicateMap) (expr : Expr)
    (hok : (m.updateBitSet expr).1 = Except.ok ())
    (hno : ∀ t ∈ tensorViews expr.inputs, ∀ id ∈ t.domain, id.isThread = false) :
    ∀ out ∈ tensorViews expr.outputs,
      ∃ r, (m.updateBitSet expr).2.find out = some r ∧
        r.1 = recordedBitmapUnion m (tensorViews expr.inputs) := by
  obtain ⟨acc, hacc, hout⟩ := updateBitSet_ok hok
  obtain ⟨_, hp, hr, hb, _⟩ := inputLoop_ok expr.inputs hacc
  have hredF : ∀ k, acc.input_reductions.get k = false := by
    intro k
    cases hv : acc.input_reductions.get k with
    | false => rfl
    | true =>
      rcases (hr k).mp hv with h | ⟨t, ht, h⟩
      · simp [InputAcc.init] at h
      · rw [TensorView.reductionOn_of_no_thread (hno t ht)] at h
        exact Bool.noConfusion h
  have hbcF : ∀ k, acc.input_bcasts.get k = false := by
    intro k
    cases hv : acc.input_bcasts.get k with
    | false => rfl
    | true =>
      rcases (hb k).mp hv with h | ⟨t, ht, h⟩
      · simp [InputAcc.init] at h
      · rw [TensorView.broadcastOn_of_no_thread (hno t ht)] at h
        exact Bool.noConfusion h
  intro out ho
  refine ⟨_, hout out ho, ?_⟩
  apply ParallelTypeBitmap.ext_get
  intro k
  rw [Bool.eq_iff_iff, recordedBitmapUnion_get, outputPreds_get, hredF k, hbcF k]
  simp only [Bool.or_false, Bool.not_false, Bool.and_true]
  rw [hp k]
  simp [InputAcc.init]

/-- Witness for C5: a tensor without parallelized dimensions whose record holds `TIDx`
is consumed. -/
theorem updateBitSet_pass_through_witness :
    ((ThreadPredicateMap.init.insert (tvPlain 1) (singleBit ParallelType.TIDx)
          (singleSource ParallelType.TIDx {tvPlain 0})).updateBitSet
        (tvExpr [tvPlain 1] [tvPlain 2])).1 = Except.ok () ∧
    ∀ out ∈ tensorViews (tvExpr [tvPlain 1] [tvPlain 2]).outputs,
      ∃ r, ((ThreadPredicateMap.init.insert (tvPlain 1) (singleBit ParallelType.TIDx)
          (singleSource ParallelType.TIDx {tvPlain 0})).updateBitSet
        (tvExpr [tvPlain 1] [tvPlain 2])).2.find out = some r ∧
        r.1 = recordedBitmapUnion
          (ThreadPredicateMap.init.insert (tvPlain 1) (singleBit ParallelType.TIDx)
            (singleSource ParallelType.TIDx {tvPlain 0}))
          (tensorViews (tvExpr [tvPlain 1] [tvPlain 2]).inputs) :=
  ⟨rfl, updateBitSet_pass_through _ _ rfl (by decide)⟩

/-! ## Properties of the constructor -/

theorem insertInputs_find_of_some (l : List Val) {m : ThreadPredicateMap} {t : TensorView}
    {r : PredAndSource} (h : m.find t = some r) : (insertInputs l m).find t = some r := by
  induction l generalizing m with
  | nil => simpa [insertInputs] using h
  | cons a rest ih =>
    cases a with
    | scalar n =>
      simp only [insertInputs]
      exact ih h
    | tv u =>
      simp only [insertInputs]
      exact ih (ThreadPredicateMap.find_insert_of_some h _ _ _)

theorem insertInputs_find_of_mem (l : List Val) (m : ThreadPredicateMap)
    (hm : ∀ t r, m.find t = some r → r = (ParallelTypeBitmap.empty, SourceMapType.empty)) :
    ∀ t ∈ tensorViews l,
      (insertInputs l m).find t = some (ParallelTypeBitmap.empty, SourceMapType.empty) := by
  induction l generalizing m with
  | nil => simp [tensorViews]
  | cons a rest ih =>
    cases a with
    | scalar n =>
      simp only [insertInputs, tensorViews_cons_scalar]
      exact ih m hm
    | tv u =>
      simp only [insertInputs, tensorViews_cons_tv]
      have hu : (m.insert u ParallelTypeBitmap.empty SourceMapType.empty).find u =
          some (ParallelTypeBitmap.empty, SourceMapType.empty) := by
        cases hf : m.find u with
        | none => exact ThreadPredicateMap.find_insert_self hf _ _
        | some r =>
          rw [ThreadPredicateMap.find_insert_of_some hf, hm u r hf]
      have hm2 : ∀ t r, (m.insert u ParallelTypeBitmap.empty SourceMapType.empty).find t
          = some r → r = (ParallelTypeBitmap.empty, SourceMapType.empty) := by
        intro t r htr
        by_cases htu : t = u
        · rw [htu, hu] at htr
          injection htr with htr
          exact htr.symm
        · rw [ThreadPredicateMap.find_insert_of_ne m htu] at htr
          exact hm t r htr
      intro t ht
      rcases List.mem_cons.mp ht with h1 | h1
      · rw [h1]
        exact insertInputs_find_of_some rest hu
      · exact ih _ hm2 t h1

theorem updateAll_find_of_some (l : List Expr) {m m1 : ThreadPredicateMap}
    (h : updateAll l m = Except.ok m1) {t : TensorView} {r : PredAndSource}
    (ht : m.find t = some r) : m1.find t = some r := by
  induction l generalizing m with
  | nil =>
    simp only [updateAll] at h
    injection h with h
    rw [← h]
    exact ht
  | cons e rest ih =>
    simp only [updateAll] at h
    have hstep := updateBitSet_find_of_some m e ht
    cases hu : m.updateBitSet e with
    | mk res m2 =>
      rw [hu] at h hstep
      cases res with
      | error err => simp at h
      | ok u => exact ih h hstep

theorem getPredicate_empty (sources : SourceMapType) :
    getPredicate ParallelTypeBitmap.empty sources = Except.ok (KirVal.boolConst true) := rfl

/-- C6: when the constructor completes, every tensor fusion input has the record with the
empty bitmap and the empty source map, and `getExpr` on it returns the constant true. -/
theorem create_inputs_unguarded (fusion : Fusion) (m : ThreadPredicateMap)
    (h : ThreadPredicateMap.create fusion = Except.ok m) :
    ∀ t ∈ tensorViews fusion.inputs,
      m.find t = some (ParallelTypeBitmap.empty, SourceMapType.empty) ∧
      m.getExpr t = Except.ok (KirVal.boolConst true) := by
  intro t ht
  have h0 := insertInputs_find_of_mem fusion.inputs ThreadPredicateMap.init
    (by intro t r htr; simp [ThreadPredicateMap.init, ThreadPredicateMap.find] at htr) t ht
  have h1 := updateAll_find_of_some fusion.exprs h h0
  refine ⟨h1, ?_⟩
  unfold ThreadPredicateMap.getExpr
  rw [h1]
  rfl

/-- Witness for C6: the constructor completes on the reduce-then-broadcast chain. -/
theorem create_inputs_unguarded_witness :
    ∃ m, ThreadPredicateMap.create chainOnOutputs = Except.ok m ∧
      ∀ t ∈ tensorViews chainOnOutputs.inputs,
        m.find t = some (ParallelTypeBitmap.empty, SourceMapType.empty) ∧
        m.getExpr t = Except.ok (KirVal.boolConst true) :=
  ⟨_, rfl, create_inputs_unguarded chainOnOutputs _ rfl⟩

/-! ## Properties of the guard builder -/

theorem soleSource_singleton (src : TensorView) : soleSource {src} = some src := rfl

theorem getPredicatePerParallelType_block_error {pt : ParallelType}
    (hpt : pt = ParallelType.BIDx ∨ pt = ParallelType.BIDy ∨ pt = ParallelType.BIDz)
    {s : Finset TensorView} (hs : s.card ≠ 1) :
    ∃ e, getPredicatePerParallelType pt s = Except.error e := by
  unfold getPredicatePerParallelType
  rw [if_pos hpt]
  by_cases h0 : s.card = 0
  · exact ⟨_, if_pos h0⟩
  · rw [if_neg h0, if_pos hs]
    exact ⟨_, rfl⟩

theorem getPredicatePerParallelType_block_single {pt : ParallelType}
    (hpt : pt = ParallelType.BIDx ∨ pt = ParallelType.BIDy ∨ pt = ParallelType.BIDz)
    (src : TensorView) :
    getPredicatePerParallelType pt {src} =
      Except.ok (KirVal.namedScalar (getPredicateFlagName src) DataType.Bool) := by
  unfold getPredicatePerParallelType
  rw [if_pos hpt]
  simp [soleSource_singleton]

/-- The loop fails as soon as one set kind of the list fails to build. -/
theorem getPredicateLoop_error (sources : SourceMapType) {K : ParallelType}
    {s : Finset TensorView} (hs : sources K = some s)
    (hfail : ∃ e, getPredicatePerParallelType K s = Except.error e)
    (l : List (ParallelType × Bool)) (hmem : (K, true) ∈ l) (pred : Option KirVal) :
    ∃ e, getPredicateLoop sources l pred = Except.error e := by
  induction l generalizing pred with
  | nil => simp at hmem
  | cons a rest ih =>
    obtain ⟨e0, he0⟩ := hfail
    rcases List.mem_cons.mp hmem with h1 | h1
    · subst h1
      simp only [getPredicateLoop, hs, he0, if_true]
      exact ⟨_, rfl⟩
    · simp only [getPredicateLoop]
      cases hb : a.2 with
      | false => simpa using ih h1 pred
      | true =>
        simp only [if_true]
        cases hsa : sources a.1 with
        | none => exact ⟨_, rfl⟩
        | some sa =>
          simp only
          cases hp : getPredicatePerParallelType a.1 sa with
          | error e => exact ⟨_, rfl⟩
          | ok tp => exact ih h1 _

theorem mem_getMap (bits : ParallelTypeBitmap) (k : ParallelType) :
    (k, bits.get k) ∈ bits.getMap := by
  unfold ParallelTypeBitmap.getMap
  exact List.mem_map.mpr ⟨k, mem_mapOrder k, rfl⟩

/-- C7: for a record whose bitmap contains a block-level kind `K` with recorded source
set `s`: if `s` is empty or holds two or more sources, `getPredicate` and `getExpr`
raise an error; if `s` is a single source, the sub-expression built for `K` is the
boolean named flag derived from that source. -/
theorem getPredicate_block_kind (bits : ParallelTypeBitmap) (sources : SourceMapType)
    (K : ParallelType) (s : Finset TensorView)
    (hK : K = ParallelType.BIDx ∨ K = ParallelType.BIDy ∨ K = ParallelType.BIDz)
    (hbit : bits.get K = true) (hs : sources K = some s) :
    (s.card ≠ 1 →
      (∃ e, getPredicate bits sources = Except.error e) ∧
      ∀ (m : ThreadPredicateMap) (tv : TensorView), m.find tv = some (bits, sources) →
        ∃ e, m.getExpr tv = Except.error e) ∧
    (∀ src, s = {src} →
      getPredicatePerParallelType K s =
        Except.ok (KirVal.namedScalar (getPredicateFlagName src) DataType.Bool)) := by
  have hnone : bits.none = false := by
    cases hn : bits.none with
    | false => rfl
    | true =>
      rw [(ParallelTypeBitmap.none_iff bits).mp hn K] at hbit
      exact Bool.noConfusion hbit
  constructor
  · intro hcard
    have hmem : (K, true) ∈ bits.getMap := hbit ▸ mem_getMap bits K
    obtain ⟨e, he⟩ := getPredicateLoop_error sources hs
      (getPredicatePerParallelType_block_error hK hcard) bits.getMap hmem Option.none
    have hg : getPredicate bits sources = Except.error e := by
      unfold getPredicate
      simp [hnone, he]
    refine ⟨⟨e, hg⟩, ?_⟩
    intro m tv hf
    refine ⟨e, ?_⟩
    unfold ThreadPredicateMap.getExpr
    rw [hf]
    exact hg
  · intro src hsrc
    subst hsrc
    exact getPredicatePerParallelType_block_single hK src

/-- Witness for C7: for the bitmap `{BIDx}`, an empty source set and a two-element
source set make `getPredicate` fail, and the single source tensor 0 gives its flag. -/
theorem getPredicate_block_kind_witness :
    (∃ e, getPredicate (singleBit ParallelType.BIDx)
        (singleSource ParallelType.BIDx ∅) = Except.error e) ∧
    (∃ e, getPredicate (singleBit ParallelType.BIDx)
        (singleSource ParallelType.BIDx {tvPlain 0, tvPlain 1}) = Except.error e) ∧
    getPredicatePerParallelType ParallelType.BIDx {tvPlain 0} =
      Except.ok (KirVal.namedScalar (getPredicateFlagName (tvPlain 0)) DataType.Bool) :=
  ⟨((getPredicate_block_kind (singleBit ParallelType.BIDx)
      (singleSource ParallelType.BIDx ∅) ParallelType.BIDx ∅
      (Or.inl rfl) rfl rfl).1 (by decide)).1,
   ((getPredicate_block_kind (singleBit ParallelType.BIDx)
      (singleSource ParallelType.BIDx {tvPlain 0, tvPlain 1}) ParallelType.BIDx
      {tvPlain 0, tvPlain 1} (Or.inl rfl) rfl rfl).1 (by decide)).1,
   (getPredicate_block_kind (singleBit ParallelType.BIDx)
      (singleSource ParallelType.BIDx {tvPlain 0}) ParallelType.BIDx {tvPlain 0}
      (Or.inl rfl) rfl rfl).2 (tvPlain 0) rfl⟩

theorem getPredicatePerParallelType_thread {pt : ParallelType}
    (hpt : pt.isBlockDim = false) (s : Finset TensorView) :
    getPredicatePerParallelType pt s = Except.ok (threadIndexIsZero pt) := by
  cases pt <;> first | rfl | exact Bool.noConfusion hpt

/-- On set kinds that are thread-level and have an entry, the loop conjoins the
thread-index tests of the set kinds, in order. -/
theorem getPredicateLoop_thread (sources : SourceMapType) (l : List (ParallelType × Bool))
    (h : ∀ p ∈ l, p.2 = true → p.1.isBlockDim = false ∧ ∃ s, sources p.1 = some s)
    (pred : Option KirVal) :
    getPredicateLoop sources l pred =
      Except.ok (conjoin pred
        ((l.filter (fun p => p.2)).map (fun p => threadIndexIsZero p.1))) := by
  induction l generalizing pred with
  | nil => cases pred <;> rfl
  | cons a rest ih =>
    have hrest : ∀ p ∈ rest, p.2 = true → p.1.isBlockDim = false ∧ ∃ s, sources p.1 = some s :=
      fun p hp => h p (List.mem_cons_of_mem _ hp)
    simp only [getPredicateLoop]
    cases hb : a.2 with
    | false =>
      simp only [Bool.false_eq_true, if_false]
      rw [ih hrest, List.filter_cons_of_neg (by simp [hb])]
    | true =>
      obtain ⟨hblk, s, hs⟩ := h a (List.mem_cons_self _ _) hb
      simp only [if_true, hs, getPredicatePerParallelType_thread hblk]
      rw [ih hrest, List.filter_cons_of_pos (by simp [hb])]
      cases pred <;> rfl

theorem threadIndexIsZero_eval (env : Env) (k : ParallelType) :
    (threadIndexIsZero k).eval env = some (RtVal.bool (decide (env.index k = 0))) := by
  simp [threadIndexIsZero, getParallelIndex, KirVal.eval]

/-- Conjoining thread-index tests onto a boolean expression gives a boolean expression
whose value is the conjunction of the values. -/
theorem conjoin_threadIndexIsZero (ks : List ParallelType) (p : KirVal)
    (hp : p.getDataType = some DataType.Bool) :
    ∃ q, conjoin (some p) (ks.map threadIndexIsZero) = some q ∧
      q.getDataType = some DataType.Bool ∧
      ∀ env b, p.eval env = some (RtVal.bool b) →
        q.eval env = some (RtVal.bool (b && ks.all (fun k => decide (env.index k = 0)))) := by
  induction ks generalizing p with
  | nil => exact ⟨p, rfl, hp, by intro env b hb; simpa using hb⟩
  | cons k rest ih =>
    obtain ⟨q, hq, hdt, hev⟩ := ih (KirVal.andExpr p (threadIndexIsZero k)) rfl
    refine ⟨q, ?_, hdt, ?_⟩
    · simpa [conjoin] using hq
    · intro env b hb
      have h2 : (KirVal.andExpr p (threadIndexIsZero k)).eval env =
          some (RtVal.bool (b && decide (env.index k = 0))) := by
        simp [KirVal.eval, hb, threadIndexIsZero_eval]
      rw [hev env _ h2]
      simp [Bool.and_assoc]

theorem mem_setKinds (bits : ParallelTypeBitmap) (k : ParallelType) :
    k ∈ setKinds bits ↔ bits.get k = true := by
  simp [setKinds, mem_mapOrder]

/-- C8, as stated, fails: for the bitmap `{TIDx}` (non-empty, thread-level kinds only)
and the source map without entries, `getPredicate` raises the out-of-range error of
`sources.at`. -/
theorem getPredicate_thread_kinds_counterexample :
    (singleBit ParallelType.TIDx).none = false ∧
    (∀ k, (singleBit ParallelType.TIDx).get k = true → k.isBlockDim = false) ∧
    getPredicate (singleBit ParallelType.TIDx) SourceMapType.empty
      = Except.error Error.outOfRange := by
  refine ⟨rfl, ?_, rfl⟩
  intro k hk
  cases k <;> first | rfl | exact Bool.noConfusion hk

/-- C8, amended: for a non-empty bitmap whose set kinds are all thread-level and a source
map that has an entry (possibly empty) for every set kind, `getPredicate` succeeds; the
guard is the left-nested conjunction of `thread_index_along(kind) == 0` over exactly the
set kinds, it is true exactly when the thread index is 0 along every set kind, and it is
the same for every source map with these entries. -/
theorem getPredicate_thread_kinds (bits : ParallelTypeBitmap) (sources : SourceMapType)
    (hne : ∃ k, bits.get k = true)
    (hthread : ∀ k, bits.get k = true → k.isBlockDim = false)
    (hentry : ∀ k, bits.get k = true → ∃ s, sources k = some s) :
    ∃ pred, getPredicate bits sources = Except.ok pred ∧
      conjoin Option.none ((setKinds bits).map threadIndexIsZero) = some pred ∧
      (∀ env, ∃ b, pred.eval env = some (RtVal.bool b) ∧
        (b = true ↔ ∀ k, bits.get k = true → env.index k = 0)) ∧
      (∀ sources1 : SourceMapType, (∀ k, bits.get k = true → ∃ s, sources1 k = some s) →
        getPredicate bits sources1 = Except.ok pred) := by
  obtain ⟨k0, hk0⟩ := hne
  have hnone : bits.none = false := by
    cases hn : bits.none with
    | false => rfl
    | true =>
      rw [(ParallelTypeBitmap.none_iff bits).mp hn k0] at hk0
      exact Bool.noConfusion hk0
  have hloop : ∀ srcs : SourceMapType, (∀ k, bits.get k = true → ∃ s, srcs k = some s) →
      getPredicateLoop srcs bits.getMap Option.none =
        Except.ok (conjoin Option.none ((setKinds bits).map threadIndexIsZero)) := by
    intro srcs hsrcs
    rw [getPredicateLoop_thread srcs bits.getMap]
    · unfold ParallelTypeBitmap.getMap setKinds
      rw [List.filter_map, List.map_map]
      rfl
    · intro p hp hp2
      unfold ParallelTypeBitmap.getMap at hp
      obtain ⟨k, _, hk⟩ := List.mem_map.mp hp
      subst hk
      exact ⟨hthread k hp2, hsrcs k hp2⟩
  have hcons : ∃ k rest, setKinds bits = k :: rest := by
    cases hsk : setKinds bits with
    | nil =>
      have := (mem_setKinds bits k0).mpr hk0
      rw [hsk] at this
      simp at this
    | cons k rest => exact ⟨k, rest, rfl⟩
  obtain ⟨k, rest, hkr⟩ := hcons
  obtain ⟨q, hq, hdt, hev⟩ := conjoin_threadIndexIsZero rest (threadIndexIsZero k) rfl
  have hconj : conjoin Option.none ((setKinds bits).map threadIndexIsZero) = some q := by
    rw [hkr]
    simpa [conjoin] using hq
  have hget : ∀ srcs : SourceMapType, (∀ k, bits.get k = true → ∃ s, srcs k = some s) →
      getPredicate bits srcs = Except.ok q := by
    intro srcs hsrcs
    unfold getPredicate
    simp [hnone, hloop srcs hsrcs, hconj, hdt]
  refine ⟨q, hget sources hentry, hconj, ?_, hget⟩
  intro env
  refine ⟨_, hev env _ (threadIndexIsZero_eval env k), ?_⟩
  have hall : ∀ k1, bits.get k1 = true ↔ k1 = k ∨ k1 ∈ rest := by
    intro k1
    rw [← mem_setKinds, hkr, List.mem_cons]
  simp only [Bool.and_eq_true, decide_eq_true_eq, List.all_eq_true]
  constructor
  · rintro ⟨h1, h2⟩ k1 hk1
    rcases (hall k1).mp hk1 with h | h
    · rw [h]
      exact h1
    · exact h2 k1 h
  · intro h
    exact ⟨h k ((hall k).mpr (Or.inl rfl)), fun k1 hk1 => h k1 ((hall k1).mpr (Or.inr hk1))⟩

/-- Witness for amended C8: the bitmap `{TIDx, TIDy}` with empty entries for every
kind. -/
theorem getPredicate_thread_kinds_witness :
    ∃ pred, getPredicate ((singleBit ParallelType.TIDx).set ParallelType.TIDy true)
        (fun _ => some ∅) = Except.ok pred ∧
      conjoin Option.none
        ((setKinds ((singleBit ParallelType.TIDx).set ParallelType.TIDy true)).map
          threadIndexIsZero) = some pred ∧
      (∀ env, ∃ b, pred.eval env = some (RtVal.bool b) ∧
        (b = true ↔ ∀ k, ((singleBit ParallelType.TIDx).set ParallelType.TIDy true).get k
          = true → env.index k = 0)) ∧
      (∀ sources1 : SourceMapType,
        (∀ k, ((singleBit ParallelType.TIDx).set ParallelType.TIDy true).get k = true →
          ∃ s, sources1 k = some s) →
        getPredicate ((singleBit ParallelType.TIDx).set ParallelType.TIDy true) sources1
          = Except.ok pred) :=
  getPredicate_thread_kinds ((singleBit ParallelType.TIDx).set ParallelType.TIDy true)
    (fun _ => some ∅) ⟨ParallelType.TIDx, rfl⟩
    (by intro k hk; cases k <;> first | rfl | exact Bool.noConfusion hk)
    (fun _ _ => ⟨∅, rfl⟩)

/-! ## duplicate and the append-only map -/

/-- C9, as stated, fails: when the copy already has a record, `duplicate` leaves it
alone. In the map where tensor 0 has the empty record and tensor 1 the record with
bitmap `{TIDx}`, after `duplicate(1, 0)` the bitmaps of tensors 1 and 0 still differ. -/
theorem duplicate_counterexample :
    (((mapOfInputs [tvPlain 0]).insert (tvPlain 1) (singleBit ParallelType.TIDx)
        (singleSource ParallelType.TIDx {tvPlain 0})).find (tvPlain 0)).isSome = true ∧
    ((((mapOfInputs [tvPlain 0]).insert (tvPlain 1) (singleBit ParallelType.TIDx)
        (singleSource ParallelType.TIDx {tvPlain 0})).duplicate (tvPlain 1) (tvPlain 0)).find
          (tvPlain 1)).map (fun r => r.1.get ParallelType.TIDx) = some true ∧
    ((((mapOfInputs [tvPlain 0]).insert (tvPlain 1) (singleBit ParallelType.TIDx)
        (singleSource ParallelType.TIDx {tvPlain 0})).duplicate (tvPlain 1) (tvPlain 0)).find
          (tvPlain 0)).map (fun r => r.1.get ParallelType.TIDx) = some false := by
  refine ⟨?_, ?_, ?_⟩ <;> decide

/-- C9, amended: if `A` has a record and `B` has none (or already holds a record equal
to that of `A`), then after `duplicate(B, A)` the lookup of `B` equals the lookup of `A`,
which is still the record `A` had. -/
theorem duplicate_lookup_eq (m : ThreadPredicateMap) (A B : TensorView) (r : PredAndSource)
    (hA : m.find A = some r)
    (hB : m.find B = Option.none ∨ m.find B = m.find A) :
    (m.duplicate B A).find B = (m.duplicate B A).find A ∧
    (m.duplicate B A).find A = some r := by
  have hA2 : (m.duplicate B A).find A = some r :=
    ThreadPredicateMap.find_duplicate_of_some hA B A
  refine ⟨?_, hA2⟩
  rw [hA2]
  rcases hB with h | h
  · unfold ThreadPredicateMap.duplicate
    rw [hA]
    exact ThreadPredicateMap.find_insert_self h r.1 r.2
  · rw [hA] at h
    exact ThreadPredicateMap.find_duplicate_of_some h B A

/-- Witness for amended C9: tensor 0 has the empty record, tensor 1 has none. -/
theorem duplicate_lookup_eq_witness :
    ((mapOfInputs [tvPlain 0]).duplicate (tvPlain 1) (tvPlain 0)).find (tvPlain 1) =
      ((mapOfInputs [tvPlain 0]).duplicate (tvPlain 1) (tvPlain 0)).find (tvPlain 0) ∧
    ((mapOfInputs [tvPlain 0]).duplicate (tvPlain 1) (tvPlain 0)).find (tvPlain 0) =
      some (ParallelTypeBitmap.empty, SourceMapType.empty) :=
  duplicate_lookup_eq (mapOfInputs [tvPlain 0]) (tvPlain 0) (tvPlain 1)
    (ParallelTypeBitmap.empty, SourceMapType.empty) rfl (Or.inl rfl)

/-- C10 (append-only): a value that has a record keeps the identical record across every
call of `insert`, `duplicate` and `updateBitSet`, whether `updateBitSet` succeeds or
fails. -/
theorem map_append_only (m : ThreadPredicateMap) (t : TensorView) (r : PredAndSource)
    (h : m.find t = some r) :
    (∀ tv pred src_map, (m.insert tv pred src_map).find t = some r) ∧
    (∀ copy origin, (m.duplicate copy origin).find t = some r) ∧
    (∀ expr, (m.updateBitSet expr).2.find t = some r) :=
  ⟨fun tv pred src_map => ThreadPredicateMap.find_insert_of_some h tv pred src_map,
   fun copy origin => ThreadPredicateMap.find_duplicate_of_some h copy origin,
   fun expr => updateBitSet_find_of_some m expr h⟩

/-- Witness for C10: the empty record of a fusion input. -/
theorem map_append_only_witness :
    (∀ tv pred src_map, ((mapOfInputs [tvPlain 0]).insert tv pred src_map).find (tvPlain 0)
      = some (ParallelTypeBitmap.empty, SourceMapType.empty)) ∧
    (∀ copy origin, ((mapOfInputs [tvPlain 0]).duplicate copy origin).find (tvPlain 0)
      = some (ParallelTypeBitmap.empty, SourceMapType.empty)) ∧
    (∀ expr, ((mapOfInputs [tvPlain 0]).updateBitSet expr).2.find (tvPlain 0)
      = some (ParallelTypeBitmap.empty, SourceMapType.empty)) :=
  map_append_only (mapOfInputs [tvPlain 0]) (tvPlain 0)
    (ParallelTypeBitmap.empty, SourceMapType.empty) rfl

/-! ## Order of the conjunction -/

theorem getPredicate_eq_getPredicateIn (bits : ParallelTypeBitmap) (sources : SourceMapType) :
    getPredicate bits sources = getPredicateIn mapOrder bits sources := rfl

/-- Every sub-expression built for a kind is boolean-typed and boolean-valued. -/
theorem getPredicatePerParallelType_bool {k : ParallelType} {s : Finset TensorView}
    {tp : KirVal} (h : getPredicatePerParallelType k s = Except.ok tp) (env : Env) :
    tp.getDataType = some DataType.Bool ∧
      tp.eval env = some (RtVal.bool (guardValue env tp)) := by
  unfold getPredicatePerParallelType at h
  by_cases hk : k = ParallelType.BIDx ∨ k = ParallelType.BIDy ∨ k = ParallelType.BIDz
  · rw [if_pos hk] at h
    by_cases h0 : s.card = 0
    · rw [if_pos h0] at h
      exact Except.noConfusion h
    · rw [if_neg h0] at h
      by_cases h1 : s.card ≠ 1
      · rw [if_pos h1] at h
        exact Except.noConfusion h
      · rw [if_neg h1] at h
        cases hs : soleSource s with
        | none => simp [hs] at h
        | some src =>
          simp only [hs] at h
          injection h with h
          subst h
          simp [KirVal.getDataType, guardValue, KirVal.eval, getPredicateFlagName]
  · rw [if_neg hk] at h
    injection h with h
    subst h
    simp [KirVal.getDataType, guardValue, KirVal.eval, getParallelIndex]

/-- The loop succeeds exactly when every set kind of the list has an entry whose
sub-expression can be built. -/
theorem getPredicateLoop_ok_iff (sources : SourceMapType) (l : List (ParallelType × Bool))
    (pred : Option KirVal) :
    (∃ res, getPredicateLoop sources l pred = Except.ok res) ↔
      ∀ p ∈ l, p.2 = true →
        ∃ s tp, sources p.1 = some s ∧ getPredicatePerParallelType p.1 s = Except.ok tp := by
  induction l generalizing pred with
  | nil => simp [getPredicateLoop]
  | cons a rest ih =>
    simp only [getPredicateLoop, List.mem_cons, forall_eq_or_imp]
    cases hb : a.2 with
    | false => simp [ih]
    | true =>
      simp only [if_true, true_implies]
      cases hs : sources a.1 with
      | none => simp
      | some s =>
        simp only
        cases hp : getPredicatePerParallelType a.1 s with
        | error e => simp [hp]
        | ok tp => simp [ih, hp]

/-- The value of the loop's result: the start value conjoined with the values of the set
kinds; the result is null only when the start is null and no kind is set. -/
theorem getPredicateLoop_eval (env : Env) (sources : SourceMapType)
    (l : List (ParallelType × Bool)) (pred res : Option KirVal) (b : Bool)
    (h : getPredicateLoop sources l pred = Except.ok res)
    (hpred : ∀ p, pred = some p →
      p.getDataType = some DataType.Bool ∧ p.eval env = some (RtVal.bool b))
    (hnone : pred = Option.none → b = true) :
    (res = Option.none ↔ pred = Option.none ∧ ∀ p ∈ l, p.2 = false) ∧
    ∀ q, res = some q →
      q.getDataType = some DataType.Bool ∧
      q.eval env = some (RtVal.bool
        (b && (l.filter (fun p => p.2)).all (fun p => kindValue env sources p.1))) := by
  induction l generalizing pred b with
  | nil =>
    simp only [getPredicateLoop] at h
    injection h with h
    subst h
    refine ⟨by simp, ?_⟩
    intro q hq
    simpa using hpred q hq
  | cons a rest ih =>
    simp only [getPredicateLoop] at h
    cases hb : a.2 with
    | false =>
      simp only [hb, Bool.false_eq_true, if_false] at h
      obtain ⟨i1, i2⟩ := ih pred b h hpred hnone
      refine ⟨?_, ?_⟩
      · rw [i1]
        simp [hb]
      · intro q hq
        rw [List.filter_cons_of_neg (by simp [hb])]
        exact i2 q hq
    | true =>
      simp only [hb, if_true] at h
      cases hs : sources a.1 with
      | none => simp [hs] at h
      | some s =>
        simp only [hs] at h
        cases hp : getPredicatePerParallelType a.1 s with
        | error e => simp [hp] at h
        | ok tp =>
          simp only [hp] at h
          obtain ⟨hdt, hev⟩ := getPredicatePerParallelType_bool hp env
          have hkv : kindValue env sources a.1 = guardValue env tp := by
            simp [kindValue, hs, hp]
          have hstart : ∀ p, (some (match pred with
                | Option.none => tp
                | some p => KirVal.andExpr p tp)) = some p →
              p.getDataType = some DataType.Bool ∧
                p.eval env = some (RtVal.bool (b && guardValue env tp)) := by
            intro p hp2
            injection hp2 with hp2
            subst hp2
            cases pred with
            | none =>
              simp only
              rw [hnone rfl]
              exact ⟨hdt, by simpa using hev⟩
            | some p0 =>
              obtain ⟨_, hev0⟩ := hpred p0 rfl
              exact ⟨rfl, by simp [KirVal.eval, hev0, hev]⟩
          obtain ⟨i1, i2⟩ := ih _ (b && guardValue env tp) h hstart (by simp)
          refine ⟨?_, ?_⟩
          · rw [i1]
            simp [hb]
          · intro q hq
            rw [List.filter_cons_of_pos (by simp [hb])]
            obtain ⟨j1, j2⟩ := i2 q hq
            refine ⟨j1, ?_⟩
            rw [j2, List.all_cons, hkv, Bool.and_assoc]

theorem all_eq_of_perm {α : Type} {l1 l2 : List α} (h : l1.Perm l2) (f : α → Bool) :
    l1.all f = l2.all f := by
  rw [Bool.eq_iff_iff, List.all_eq_true, List.all_eq_true]
  constructor
  · intro h1 x hx
    exact h1 x (h.mem_iff.mpr hx)
  · intro h1 x hx
    exact h1 x (h.mem_iff.mp hx)

/-- C11: the guard does not depend on the iteration order over the bitmap's kinds. If
`getPredicate` run in one order builds a guard, then run in any permutation of that
order it builds a guard too, and under every assignment of thread indices and flag
values both guards evaluate to the same boolean. -/
theorem getPredicate_order_independent (o1 o2 : List ParallelType) (hperm : o1.Perm o2)
    (bits : ParallelTypeBitmap) (sources : SourceMapType) (p1 : KirVal)
    (h1 : getPredicateIn o1 bits sources = Except.ok p1) :
    ∃ p2, getPredicateIn o2 bits sources = Except.ok p2 ∧
      ∀ env, ∃ b, p1.eval env = some (RtVal.bool b) ∧ p2.eval env = some (RtVal.bool b) := by
  unfold getPredicateIn at h1 ⊢
  cases hn : bits.none with
  | true =>
    simp only [hn, if_true] at h1 ⊢
    injection h1 with h1
    subst h1
    exact ⟨_, rfl, fun env => ⟨true, rfl, rfl⟩⟩
  | false =>
    simp only [hn, Bool.false_eq_true, if_false] at h1 ⊢
    have hpm : (o1.map (fun k => (k, bits.bitset_ k))).Perm
        (o2.map (fun k => (k, bits.bitset_ k))) := hperm.map _
    cases hl1 : getPredicateLoop sources (o1.map (fun k => (k, bits.bitset_ k))) Option.none with
    | error e => simp [hl1] at h1
    | ok res1 =>
      cases res1 with
      | none => simp [hl1] at h1
      | some q1 =>
        simp only [hl1] at h1
        by_cases hd1 : q1.getDataType = some DataType.Bool
        · rw [if_pos hd1] at h1
          injection h1 with h1
          subst h1
          have hok2 : ∃ res, getPredicateLoop sources
              (o2.map (fun k => (k, bits.bitset_ k))) Option.none = Except.ok res := by
            rw [getPredicateLoop_ok_iff]
            intro p hp
            exact (getPredicateLoop_ok_iff sources _ Option.none).mp ⟨_, hl1⟩ p
              (hpm.mem_iff.mpr hp)
          obtain ⟨res2, hl2⟩ := hok2
          have hev1 := fun env => getPredicateLoop_eval env sources _ Option.none _ true hl1
            (by intro p hp; exact Option.noConfusion hp) (fun _ => rfl)
          have hev2 := fun env => getPredicateLoop_eval env sources _ Option.none _ true hl2
            (by intro p hp; exact Option.noConfusion hp) (fun _ => rfl)
          have env0 : Env := ⟨fun _ => 0, fun _ => false⟩
          cases res2 with
          | none =>
            have h2 := ((hev2 env0).1.mp rfl).2
            have h3 : (some q1 : Option KirVal) = Option.none :=
              (hev1 env0).1.mpr ⟨rfl, fun p hp => h2 p (hpm.mem_iff.mp hp)⟩
            exact Option.noConfusion h3
          | some q2 =>
            have hd2 : q2.getDataType = some DataType.Bool := ((hev2 env0).2 q2 rfl).1
            refine ⟨q2, by simp [hl2, hd2], ?_⟩
            intro env
            refine ⟨_, ((hev1 env).2 q1 rfl).2, ?_⟩
            rw [((hev2 env).2 q2 rfl).2, all_eq_of_perm (hpm.filter _)]
        · rw [if_neg hd1] at h1
          exact Except.noConfusion h1

/-- Witness for C11: the bitmap `{BIDx, TIDx}` with one source for `BIDx`, iterated in
the key order of the map and in the order of the bit offsets. -/
theorem getPredicate_order_independent_witness :
    ∃ p2, getPredicateIn offsetOrder ((singleBit ParallelType.TIDx).set ParallelType.BIDx true)
        (fun _ => some {tvPlain 0}) = Except.ok p2 ∧
      ∀ env, ∃ b,
        (KirVal.andExpr
          (KirVal.namedScalar (getPredicateFlagName (tvPlain 0)) DataType.Bool)
          (threadIndexIsZero ParallelType.TIDx)).eval env = some (RtVal.bool b) ∧
        p2.eval env = some (RtVal.bool b) :=
  getPredicate_order_independent mapOrder offsetOrder (by decide)
    ((singleBit ParallelType.TIDx).set ParallelType.BIDx true) (fun _ => some {tvPlain 0})
    _ rfl

/-! ## Failures of updateBitSet -/

theorem updateBitSet_of_inputLoop_error {m : ThreadPredicateMap} {expr : Expr} {e : Error}
    (h : inputLoop m expr.inputs InputAcc.init = Except.error e) :
    m.updateBitSet expr = (Except.error e, m) := by
  unfold ThreadPredicateMap.updateBitSet
  rw [h]

/-- C12: when some tensor input of the operation has no record, `updateBitSet` raises an
error and leaves the map unchanged. -/
theorem updateBitSet_missing_input (m : ThreadPredicateMap) (expr : Expr)
    (h : ∃ t ∈ tensorViews expr.inputs, m.find t = Option.none) :
    (∃ e, (m.updateBitSet expr).1 = Except.error e) ∧ (m.updateBitSet expr).2 = m := by
  obtain ⟨t, ht, hnone⟩ := h
  cases hl : inputLoop m expr.inputs InputAcc.init with
  | ok acc =>
    obtain ⟨r, hr⟩ := (inputLoop_ok expr.inputs hl).1 t ht
    rw [hnone] at hr
    exact Option.noConfusion hr
  | error e =>
    rw [updateBitSet_of_inputLoop_error hl]
    exact ⟨⟨e, rfl⟩, rfl⟩

/-- Witness for C12: the only input has no record in the initial map. -/
theorem updateBitSet_missing_input_witness :
    (∃ e, (ThreadPredicateMap.init.updateBitSet (tvExpr [tvPlain 0] [tvPlain 1])).1
      = Except.error e) ∧
    (ThreadPredicateMap.init.updateBitSet (tvExpr [tvPlain 0] [tvPlain 1])).2
      = ThreadPredicateMap.init :=
  updateBitSet_missing_input ThreadPredicateMap.init (tvExpr [tvPlain 0] [tvPlain 1])
    ⟨tvPlain 0, by decide, rfl⟩

/-- The output loop fails when some tensor output already has a record. -/
theorem outputLoop_error_of_present (p : ParallelTypeBitmap) (s : SourceMapType)
    (outs : List Val) (m : ThreadPredicateMap)
    (h : ∃ t ∈ tensorViews outs, ∃ r, m.find t = some r) :
    (outputLoop p s outs m).1 = Except.error Error.outputAlreadyPresent := by
  induction outs generalizing m with
  | nil => simp [tensorViews] at h
  | cons out rest ih =>
    cases out with
    | scalar n =>
      simp only [outputLoop, tensorViews_cons_scalar] at h ⊢
      exact ih m h
    | tv tv_out =>
      simp only [outputLoop]
      cases hf : m.find tv_out with
      | some r1 => rfl
      | none =>
        simp only
        apply ih
        obtain ⟨t, ht, r, hr⟩ := h
        rw [tensorViews_cons_tv] at ht
        rcases List.mem_cons.mp ht with h1 | h1
        · rw [h1, hf] at hr
          exact Option.noConfusion hr
        · exact ⟨t, h1, r, ThreadPredicateMap.find_insert_of_some hr _ _ _⟩

/-- The output loop fails when a tensor occurs twice among the outputs. -/
theorem outputLoop_error_of_dup (p : ParallelTypeBitmap) (s : SourceMapType)
    (outs : List Val) (m : ThreadPredicateMap) (h : ¬ (tensorViews outs).Nodup) :
    (outputLoop p s outs m).1 = Except.error Error.outputAlreadyPresent := by
  induction outs generalizing m with
  | nil => simp [tensorViews] at h
  | cons out rest ih =>
    cases out with
    | scalar n =>
      simp only [outputLoop, tensorViews_cons_scalar] at h ⊢
      exact ih m h
    | tv tv_out =>
      simp only [outputLoop]
      cases hf : m.find tv_out with
      | some r1 => rfl
      | none =>
        simp only
        rw [tensorViews_cons_tv, List.nodup_cons, not_and_or, not_not] at h
        rcases h with h1 | h1
        · exact outputLoop_error_of_present p s rest _
            ⟨tv_out, h1, _, ThreadPredicateMap.find_insert_self hf p s⟩
        · exact ih _ h1

/-- C13 (single assignment): when a tensor output of the operation already has a record,
or the same tensor occurs twice among the outputs, `updateBitSet` raises an error (the
single-assignment assertion once the input loop has passed); a record that existed
before the call is neither overwritten nor dropped. -/
theorem updateBitSet_output_present (m : ThreadPredicateMap) (expr : Expr)
    (h : (∃ t ∈ tensorViews expr.outputs, ∃ r, m.find t = some r) ∨
      ¬ (tensorViews expr.outputs).Nodup) :
    (∃ e, (m.updateBitSet expr).1 = Except.error e) ∧
    (∀ acc, inputLoop m expr.inputs InputAcc.init = Except.ok acc →
      (m.updateBitSet expr).1 = Except.error Error.outputAlreadyPresent) ∧
    ∀ t r, m.find t = some r → (m.updateBitSet expr).2.find t = some r := by
  refine ⟨?_, ?_, fun t r htr => updateBitSet_find_of_some m expr htr⟩
  rotate_left
  · intro acc hl
    unfold ThreadPredicateMap.updateBitSet
    simp only [hl]
    rcases h with h | h
    · exact outputLoop_error_of_present _ _ _ m h
    · exact outputLoop_error_of_dup _ _ _ m h
  cases hl : inputLoop m expr.inputs InputAcc.init with
  | error e =>
    rw [updateBitSet_of_inputLoop_error hl]
    exact ⟨e, rfl⟩
  | ok acc =>
    unfold ThreadPredicateMap.updateBitSet
    simp only [hl]
    rcases h with h | h
    · exact ⟨_, outputLoop_error_of_present _ _ _ m h⟩
    · exact ⟨_, outputLoop_error_of_dup _ _ _ m h⟩

/-- Witness for C13: the output is the fusion input itself, and an output listed
twice. -/
theorem updateBitSet_output_present_witness :
    ((mapOfInputs [tvPlain 0]).updateBitSet (tvExpr [tvPlain 0] [tvPlain 0])).1
        = Except.error Error.outputAlreadyPresent ∧
    ((mapOfInputs [tvPlain 0]).updateBitSet (tvExpr [tvPlain 0] [tvPlain 1, tvPlain 1])).1
        = Except.error Error.outputAlreadyPresent :=
  ⟨(updateBitSet_output_present (mapOfInputs [tvPlain 0]) (tvExpr [tvPlain 0] [tvPlain 0])
     (Or.inl ⟨tvPlain 0, by decide, _, rfl⟩)).2.1 _ rfl,
   (updateBitSet_output_present (mapOfInputs [tvPlain 0])
     (tvExpr [tvPlain 0] [tvPlain 1, tvPlain 1]) (Or.inr (by decide))).2.1 _ rfl⟩

/-! ## Closed forms of the inserted record -/

theorem outputPreds_eq_setDifferencePreds (acc : InputAcc) :
    outputPreds acc = setDifferencePreds acc := by
  apply ParallelTypeBitmap.ext_get
  intro k
  rw [outputPreds_get]
  rfl

/-- C14: when `updateBitSet` succeeds, every tensor output receives the same bitmap, the
four-step `output_preds`, and it equals the set difference
`(input_preds ∪ input_reductions) \ input_bcasts`: kind `K` is set exactly when some
tensor input has `K` in its recorded bitmap or a thread-parallelized reduction dimension
of kind `K`, and no tensor input has a thread-parallelized broadcast dimension of kind
`K`. -/
theorem updateBitSet_output_bitmap (m : ThreadPredicateMap) (expr : Expr)
    (hok : (m.updateBitSet expr).1 = Except.ok ()) :
    ∃ acc, inputLoop m expr.inputs InputAcc.init = Except.ok acc ∧
      outputPreds acc = setDifferencePreds acc ∧
      ∀ out ∈ tensorViews expr.outputs,
        ∃ r, (m.updateBitSet expr).2.find out = some r ∧
          r.1 = setDifferencePreds acc ∧
          ∀ K, r.1.get K = true ↔
            ((∃ t ∈ tensorViews expr.inputs, ∃ ri, m.find t = some ri ∧ ri.1.get K = true) ∨
              (∃ t ∈ tensorViews expr.inputs, t.reductionOn K = true)) ∧
            ¬ ∃ t ∈ tensorViews expr.inputs, t.broadcastOn K = true := by
  obtain ⟨acc, hacc, hout⟩ := updateBitSet_ok hok
  obtain ⟨_, hp, hr, hb, _⟩ := inputLoop_ok expr.inputs hacc
  refine ⟨acc, hacc, outputPreds_eq_setDifferencePreds acc, ?_⟩
  intro out ho
  refine ⟨_, hout out ho, outputPreds_eq_setDifferencePreds acc, ?_⟩
  intro K
  have hp1 := hp K
  have hr1 := hr K
  have hb1 := hb K
  simp only [InputAcc.init, ParallelTypeBitmap.get_empty, Bool.false_eq_true, false_or]
    at hp1 hr1 hb1
  rw [outputPreds_get, ← hp1, ← hr1, ← hb1]
  simp

/-- Witness for C14: the inputs are tensor 2 (record `{TIDx}`) and tensor 4 (reduction on
`TIDx`). -/
theorem updateBitSet_output_bitmap_witness :
    ∃ acc, inputLoop twoReductionsMap
        (tvExpr [tvPlain 2, tvRed 4 ParallelType.TIDx] [tvPlain 5]).inputs InputAcc.init
        = Except.ok acc ∧
      outputPreds acc = setDifferencePreds acc ∧
      ∀ out ∈ tensorViews (tvExpr [tvPlain 2, tvRed 4 ParallelType.TIDx] [tvPlain 5]).outputs,
        ∃ r, (twoReductionsMap.updateBitSet
            (tvExpr [tvPlain 2, tvRed 4 ParallelType.TIDx] [tvPlain 5])).2.find out = some r ∧
          r.1 = setDifferencePreds acc ∧
          ∀ K, r.1.get K = true ↔
            ((∃ t ∈ tensorViews
                (tvExpr [tvPlain 2, tvRed 4 ParallelType.TIDx] [tvPlain 5]).inputs,
                ∃ ri, twoReductionsMap.find t = some ri ∧ ri.1.get K = true) ∨
              (∃ t ∈ tensorViews
                (tvExpr [tvPlain 2, tvRed 4 ParallelType.TIDx] [tvPlain 5]).inputs,
                t.reductionOn K = true)) ∧
            ¬ ∃ t ∈ tensorViews
                (tvExpr [tvPlain 2, tvRed 4 ParallelType.TIDx] [tvPlain 5]).inputs,
                t.broadcastOn K = true :=
  updateBitSet_output_bitmap twoReductionsMap
    (tvExpr [tvPlain 2, tvRed 4 ParallelType.TIDx] [tvPlain 5]) rfl

/-- C15: when `updateBitSet` succeeds, for every kind `K` the source set inserted for `K`
on every tensor output is empty if `K` is in the pre-reset `output_preds` and in
`input_bcasts`; otherwise it consists of the sources that the tensor inputs' records
hold for `K` together with exactly the tensor inputs that have a thread-parallelized
reduction dimension of kind `K`. -/
theorem updateBitSet_output_sources (m : ThreadPredicateMap) (expr : Expr)
    (hok : (m.updateBitSet expr).1 = Except.ok ()) :
    ∀ out ∈ tensorViews expr.outputs,
      ∃ r, (m.updateBitSet expr).2.find out = some r ∧
        ∀ K,
          ((((∃ t ∈ tensorViews expr.inputs, ∃ ri, m.find t = some ri ∧ ri.1.get K = true) ∨
              (∃ t ∈ tensorViews expr.inputs, t.reductionOn K = true)) ∧
              ∃ t ∈ tensorViews expr.inputs, t.broadcastOn K = true) →
            r.2 K = some ∅) ∧
          (¬ (((∃ t ∈ tensorViews expr.inputs, ∃ ri, m.find t = some ri ∧ ri.1.get K = true) ∨
              (∃ t ∈ tensorViews expr.inputs, t.reductionOn K = true)) ∧
              ∃ t ∈ tensorViews expr.inputs, t.broadcastOn K = true) →
            ∀ u, u ∈ r.2.sourcesOf K ↔
              (∃ t ∈ tensorViews expr.inputs, ∃ ri, m.find t = some ri ∧
                u ∈ ri.2.sourcesOf K) ∨
              (u ∈ tensorViews expr.inputs ∧ u.reductionOn K = true)) := by
  obtain ⟨acc, hacc, hout⟩ := updateBitSet_ok hok
  obtain ⟨_, hp, hr, hb, hs⟩ := inputLoop_ok expr.inputs hacc
  intro out ho
  refine ⟨_, hout out ho, ?_⟩
  intro K
  have hp1 := hp K
  have hr1 := hr K
  have hb1 := hb K
  simp only [InputAcc.init, ParallelTypeBitmap.get_empty, Bool.false_eq_true, false_or]
    at hp1 hr1 hb1
  have hcond : ((preResetOutputPreds acc).get K && acc.input_bcasts.get K) = true ↔
      (((∃ t ∈ tensorViews expr.inputs, ∃ ri, m.find t = some ri ∧ ri.1.get K = true) ∨
        (∃ t ∈ tensorViews expr.inputs, t.reductionOn K = true)) ∧
        ∃ t ∈ tensorViews expr.inputs, t.broadcastOn K = true) := by
    rw [← hp1, ← hr1, ← hb1]
    simp [preResetOutputPreds]
  constructor
  · intro hc
    simp [outputSrcMap_apply, hcond.mpr hc]
  · intro hc
    intro u
    have hne : ¬ ((preResetOutputPreds acc).get K && acc.input_bcasts.get K) = true :=
      fun h => hc (hcond.mp h)
    have hsame : (outputSrcMap acc).sourcesOf K = acc.src_map.sourcesOf K := by
      simp [SourceMapType.sourcesOf, outputSrcMap_apply, hne]
    show u ∈ (outputSrcMap acc).sourcesOf K ↔ _
    rw [hsame, hs K u]
    simp [InputAcc.init, SourceMapType.sourcesOf, SourceMapType.empty]

/-- Witness for C15: the inputs are tensor 2 (record `{TIDx}` with source tensor 1) and
tensor 4 (reduction on `TIDx`). -/
theorem updateBitSet_output_sources_witness :
    ∃ r, (twoReductionsMap.updateBitSet
        (tvExpr [tvPlain 2, tvRed 4 ParallelType.TIDx] [tvPlain 5])).2.find (tvPlain 5)
        = some r ∧
      ∀ u, u ∈ r.2.sourcesOf ParallelType.TIDx ↔
        (∃ t ∈ tensorViews (tvExpr [tvPlain 2, tvRed 4 ParallelType.TIDx] [tvPlain 5]).inputs,
          ∃ ri, twoReductionsMap.find t = some ri ∧ u ∈ ri.2.sourcesOf ParallelType.TIDx) ∨
        (u ∈ tensorViews (tvExpr [tvPlain 2, tvRed 4 ParallelType.TIDx] [tvPlain 5]).inputs ∧
          u.reductionOn ParallelType.TIDx = true) :=
  match updateBitSet_output_sources twoReductionsMap
      (tvExpr [tvPlain 2, tvRed 4 ParallelType.TIDx] [tvPlain 5]) rfl (tvPlain 5)
      (by decide) with
  | ⟨r, hr, h⟩ => ⟨r, hr, (h ParallelType.TIDx).2 (by decide)⟩

/-! ## The validation of the inputs -/

theorem validateCombination_cases (ir : ParallelTypeBitmap) (ids : IdBits)
    (l : List ParallelType) :
    validateCombination ir ids l = Except.ok () ∨
      validateCombination ir ids l = Except.error Error.mismatchedReductions ∨
      validateCombination ir ids l = Except.error Error.invalidBroadcastReduction := by
  induction l with
  | nil => exact Or.inl rfl
  | cons a t ih =>
    simp only [validateCombination]
    cases h1 : ir.get a <;> cases h2 : ids.id_ptypes.get a <;>
      cases h3 : ids.id_reductions.get a <;> cases h4 : ids.id_bcasts.get a <;>
      simp [ih]

/-- The validation of one input succeeds exactly when no kind is accumulated as a
reduction, parallelized on the input, and either not a reduction or a broadcast there. -/
theorem validateCombination_tv_ok_iff (ir : ParallelTypeBitmap) (t : TensorView) :
    validateCombination ir (classifyDomain t.domain) offsetOrder = Except.ok () ↔
      ¬ ∃ K, ir.get K = true ∧ t.parallelOn K = true ∧
        (t.reductionOn K = false ∨ t.broadcastOn K = true) := by
  rw [validateCombination_ok_iff]
  simp only [classifyDomain_ptypes, classifyDomain_reductions, classifyDomain_bcasts]
  constructor
  · rintro h ⟨K, h1, h2, h3⟩
    obtain ⟨h4, h5⟩ := h K (mem_offsetOrder K) h1 h2
    rcases h3 with h3 | h3
    · rw [h4] at h3
      exact Bool.noConfusion h3
    · rw [h5] at h3
      exact Bool.noConfusion h3
  · intro h K _ h1 h2
    constructor
    · cases h3 : t.reductionOn K with
      | true => rfl
      | false => exact absurd ⟨K, h1, h2, Or.inl h3⟩ h
    · cases h3 : t.broadcastOn K with
      | false => rfl
      | true => exact absurd ⟨K, h1, h2, Or.inr h3⟩ h

/-- One iteration on a tensor input that has a record: it succeeds when the validation
passes and raises the validation's error otherwise. -/
theorem processInput_tv_cases (m : ThreadPredicateMap) (acc : InputAcc) (t : TensorView)
    (hrec : (m.find t).isSome = true) :
    (validateCombination acc.input_reductions (classifyDomain t.domain) offsetOrder
        = Except.ok () ∧ ∃ acc1, processInput m acc (Val.tv t) = Except.ok acc1) ∨
    (validateCombination acc.input_reductions (classifyDomain t.domain) offsetOrder
        ≠ Except.ok () ∧
      (processInput m acc (Val.tv t) = Except.error Error.mismatchedReductions ∨
        processInput m acc (Val.tv t) = Except.error Error.invalidBroadcastReduction)) := by
  unfold processInput
  cases hf : m.find t with
  | none => simp [hf] at hrec
  | some r =>
    rcases validateCombination_cases acc.input_reductions (classifyDomain t.domain)
      offsetOrder with h | h | h
    · left
      simp [h, hf]
    · right
      simp [h, hf]
    · right
      simp [h, hf]

theorem outputLoop_cases (p : ParallelTypeBitmap) (s : SourceMapType) (outs : List Val)
    (m : ThreadPredicateMap) :
    (outputLoop p s outs m).1 = Except.ok () ∨
      (outputLoop p s outs m).1 = Except.error Error.outputAlreadyPresent := by
  induction outs generalizing m with
  | nil => exact Or.inl rfl
  | cons out rest ih =>
    cases out with
    | scalar n =>
      simp only [outputLoop]
      exact ih m
    | tv tv_out =>
      simp only [outputLoop]
      cases hf : m.find tv_out with
      | some r1 => exact Or.inr rfl
      | none => exact ih _

/-- With records for all tensor inputs, the input loop either succeeds or raises one of
the two consistency errors, and it fails exactly when some input conflicts with the
reductions accumulated before it. -/
theorem inputLoop_fails_iff (m : ThreadPredicateMap) (l : List Val) (acc : InputAcc)
    (hrec : ∀ t ∈ tensorViews l, (m.find t).isSome = true) :
    ((∃ acc1, inputLoop m l acc = Except.ok acc1) ∨
      inputLoop m l acc = Except.error Error.mismatchedReductions ∨
      inputLoop m l acc = Except.error Error.invalidBroadcastReduction) ∧
    ((¬ ∃ acc1, inputLoop m l acc = Except.ok acc1) ↔
      ∃ l1 j l3 K, tensorViews l = l1 ++ j :: l3 ∧
        (acc.input_reductions.get K = true ∨ ∃ i ∈ l1, i.reductionOn K = true) ∧
        j.parallelOn K = true ∧ (j.reductionOn K = false ∨ j.broadcastOn K = true)) := by
  induction l generalizing acc with
  | nil =>
    refine ⟨Or.inl ⟨acc, rfl⟩, ?_⟩
    constructor
    · intro h
      exact absurd ⟨acc, rfl⟩ h
    · rintro ⟨l1, j, l3, K, h, _⟩
      simp [tensorViews] at h
  | cons inp rest ih =>
    cases inp with
    | scalar n =>
      simp only [inputLoop, processInput_scalar, tensorViews_cons_scalar] at hrec ⊢
      exact ih acc hrec
    | tv t =>
      rw [tensorViews_cons_tv] at hrec ⊢
      have hrest : ∀ u ∈ tensorViews rest, (m.find u).isSome = true :=
        fun u hu => hrec u (List.mem_cons_of_mem _ hu)
      rcases processInput_tv_cases m acc t (hrec t (List.mem_cons_self _ _)) with
        ⟨hv, acc2, hp⟩ | ⟨hv, hp⟩
      · -- the validation of `t` passes
        obtain ⟨_, _, _, _, hred, _, _⟩ := processInput_tv hp
        have hstep : inputLoop m (Val.tv t :: rest) acc = inputLoop m rest acc2 := by
          simp only [inputLoop, hp]
        rw [hstep]
        obtain ⟨i1, i2⟩ := ih acc2 hrest
        refine ⟨i1, ?_⟩
        rw [i2]
        have hnc := (validateCombination_tv_ok_iff acc.input_reductions t).mp hv
        constructor
        · rintro ⟨l1, j, l3, K, hl, hK, hj⟩
          refine ⟨t :: l1, j, l3, K, by rw [hl]; rfl, ?_, hj⟩
          rw [hred K, Bool.or_eq_true] at hK
          rcases hK with (h | h) | ⟨i, hi, h⟩
          · exact Or.inl h
          · exact Or.inr ⟨t, List.mem_cons_self _ _, h⟩
          · exact Or.inr ⟨i, List.mem_cons_of_mem _ hi, h⟩
        · rintro ⟨l1, j, l3, K, hl, hK, hj⟩
          cases l1 with
          | nil =>
            simp only [List.nil_append, List.cons.injEq] at hl
            obtain ⟨hl1, hl2⟩ := hl
            subst hl1
            rcases hK with h | ⟨i, hi, _⟩
            · exact absurd ⟨K, h, hj⟩ hnc
            · simp at hi
          | cons a l1 =>
            simp only [List.cons_append, List.cons.injEq] at hl
            obtain ⟨hl1, hl2⟩ := hl
            subst hl1
            refine ⟨l1, j, l3, K, hl2, ?_, hj⟩
            rw [hred K, Bool.or_eq_true]
            rcases hK with h | ⟨i, hi, h⟩
            · exact Or.inl (Or.inl h)
            · rcases List.mem_cons.mp hi with h1 | h1
              · exact Or.inl (Or.inr (h1 ▸ h))
              · exact Or.inr ⟨i, h1, h⟩
      · -- the validation of `t` fails
        have hnot : ¬ ∃ acc1, inputLoop m (Val.tv t :: rest) acc = Except.ok acc1 := by
          rintro ⟨acc1, h⟩
          simp only [inputLoop] at h
          rcases hp with hp | hp <;> simp [hp] at h
        have herr : inputLoop m (Val.tv t :: rest) acc = Except.error Error.mismatchedReductions ∨
            inputLoop m (Val.tv t :: rest) acc
              = Except.error Error.invalidBroadcastReduction := by
          simp only [inputLoop]
          rcases hp with hp | hp <;> simp [hp]
        refine ⟨Or.inr herr, ?_⟩
        constructor
        · intro _
          have hc : ∃ K, acc.input_reductions.get K = true ∧ t.parallelOn K = true ∧
              (t.reductionOn K = false ∨ t.broadcastOn K = true) := by
            by_contra hcon
            exact hv ((validateCombination_tv_ok_iff acc.input_reductions t).mpr hcon)
          obtain ⟨K, h1, h2⟩ := hc
          exact ⟨[], t, tensorViews rest, K, rfl, Or.inl h1, h2⟩
        · intro _
          exact hnot

/-- C16: when all tensor inputs of the operation have records, `updateBitSet` raises one
of the two consistency errors if and only if there are a kind `K`, a tensor input `i`
and a later tensor input `j` such that `i` has a thread-parallelized reduction dimension
of kind `K`, `j` has a dimension parallelized on `K`, and `j` has no reduction dimension
parallelized on `K` or has a broadcast dimension parallelized on `K`. -/
theorem updateBitSet_consistency_error_iff (m : ThreadPredicateMap) (expr : Expr)
    (hrec : ∀ t ∈ tensorViews expr.inputs, (m.find t).isSome = true) :
    ((m.updateBitSet expr).1 = Except.error Error.mismatchedReductions ∨
      (m.updateBitSet expr).1 = Except.error Error.invalidBroadcastReduction) ↔
    ∃ l1 i l2 j l3 K, tensorViews expr.inputs = l1 ++ i :: l2 ++ j :: l3 ∧
      i.reductionOn K = true ∧ j.parallelOn K = true ∧
      (j.reductionOn K = false ∨ j.broadcastOn K = true) := by
  obtain ⟨hcases, hiff⟩ := inputLoop_fails_iff m expr.inputs InputAcc.init hrec
  constructor
  · intro herr
    have hfail : ¬ ∃ acc1, inputLoop m expr.inputs InputAcc.init = Except.ok acc1 := by
      rintro ⟨acc1, hl⟩
      unfold ThreadPredicateMap.updateBitSet at herr
      simp only [hl] at herr
      rcases outputLoop_cases (outputPreds acc1) (outputSrcMap acc1) expr.outputs m with h | h
      · rw [h] at herr
        rcases herr with h1 | h1 <;> exact Except.noConfusion h1
      · rw [h] at herr
        rcases herr with h1 | h1 <;> injection h1 with h1 <;> exact Error.noConfusion h1
    obtain ⟨l1, j, l3, K, hl, hK, hj⟩ := hiff.mp hfail
    rcases hK with h | ⟨i, hi, h⟩
    · simp [InputAcc.init] at h
    · obtain ⟨a, b, hab⟩ := List.append_of_mem hi
      exact ⟨a, i, b, j, l3, K, by rw [hl, hab], h, hj⟩
  · rintro ⟨l1, i, l2, j, l3, K, hl, hi, hj⟩
    have hfail : ¬ ∃ acc1, inputLoop m expr.inputs InputAcc.init = Except.ok acc1 :=
      hiff.mpr ⟨l1 ++ i :: l2, j, l3, K, hl, Or.inr ⟨i, by simp, hi⟩, hj⟩
    rcases hcases with h | h | h
    · exact absurd h hfail
    · exact Or.inl (by rw [updateBitSet_of_inputLoop_error h])
    · exact Or.inr (by rw [updateBitSet_of_inputLoop_error h])

/-- Witness for C16: the reducing input comes first and the broadcast input second. -/
theorem updateBitSet_consistency_error_iff_witness :
    ((mapOfInputs [tvBcast 1 ParallelType.TIDx, tvRed 2 ParallelType.TIDx]).updateBitSet
        (tvExpr [tvRed 2 ParallelType.TIDx, tvBcast 1 ParallelType.TIDx] [tvPlain 3])).1
        = Except.error Error.mismatchedReductions ∨
    ((mapOfInputs [tvBcast 1 ParallelType.TIDx, tvRed 2 ParallelType.TIDx]).updateBitSet
        (tvExpr [tvRed 2 ParallelType.TIDx, tvBcast 1 ParallelType.TIDx] [tvPlain 3])).1
        = Except.error Error.invalidBroadcastReduction :=
  (updateBitSet_consistency_error_iff
    (mapOfInputs [tvBcast 1 ParallelType.TIDx, tvRed 2 ParallelType.TIDx])
    (tvExpr [tvRed 2 ParallelType.TIDx, tvBcast 1 ParallelType.TIDx] [tvPlain 3])
    (by decide)).mpr
    ⟨[], tvRed 2 ParallelType.TIDx, [], tvBcast 1 ParallelType.TIDx, [], ParallelType.TIDx,
      rfl, rfl, rfl, Or.inl rfl⟩

/-! ## Invariants of the maps built by the pass -/

theorem ThreadPredicateMap.find_insert_cases {m : ThreadPredicateMap} {tv t : TensorView}
    {pred : ParallelTypeBitmap} {src_map : SourceMapType} {r : PredAndSource}
    (h : (m.insert tv pred src_map).find t = some r) :
    m.find t = some r ∨ r = (pred, src_map) := by
  by_cases htv : t = tv
  · subst htv
    cases hf : m.find t with
    | some r1 =>
      rw [ThreadPredicateMap.find_insert_of_some hf] at h
      exact Or.inl h
    | none =>
      rw [ThreadPredicateMap.find_insert_self hf] at h
      injection h with h
      exact Or.inr h.symm
  · rw [ThreadPredicateMap.find_insert_of_ne m htv] at h
    exact Or.inl h

theorem outputLoop_find_cases (p : ParallelTypeBitmap) (s : SourceMapType) (outs : List Val)
    {m : ThreadPredicateMap} {t : TensorView} {r : PredAndSource}
    (h : (outputLoop p s outs m).2.find t = some r) :
    m.find t = some r ∨ r = (p, s) := by
  induction outs generalizing m with
  | nil => exact Or.inl (by simpa [outputLoop] using h)
  | cons out rest ih =>
    cases out with
    | scalar n =>
      simp only [outputLoop] at h
      exact ih h
    | tv tv_out =>
      simp only [outputLoop] at h
      cases hf : m.find tv_out with
      | some r1 =>
        simp only [hf] at h
        exact Or.inl h
      | none =>
        simp only [hf] at h
        rcases ih h with h1 | h1
        · exact ThreadPredicateMap.find_insert_cases h1
        · exact Or.inr h1

theorem insertInputs_find_cases (l : List Val) {m : ThreadPredicateMap} {t : TensorView}
    {r : PredAndSource} (h : (insertInputs l m).find t = some r) :
    m.find t = some r ∨ r = (ParallelTypeBitmap.empty, SourceMapType.empty) := by
  induction l generalizing m with
  | nil => exact Or.inl (by simpa [insertInputs] using h)
  | cons a rest ih =>
    cases a with
    | scalar n =>
      simp only [insertInputs] at h
      exact ih h
    | tv u =>
      simp only [insertInputs] at h
      rcases ih h with h1 | h1
      · exact ThreadPredicateMap.find_insert_cases h1
      · exact Or.inr h1

theorem ThreadPredicateMap.find_duplicate_cases {m : ThreadPredicateMap}
    {copy origin t : TensorView} {r : PredAndSource}
    (h : (m.duplicate copy origin).find t = some r) :
    m.find t = some r ∨ m.find origin = some r := by
  unfold ThreadPredicateMap.duplicate at h
  cases ho : m.find origin with
  | none =>
    simp only [ho] at h
    exact Or.inl h
  | some ro =>
    simp only [ho] at h
    rcases ThreadPredicateMap.find_insert_cases h with h1 | h1
    · exact Or.inl h1
    · exact Or.inr (by rw [h1])

/-- The record computed by `updateBitSet` has a kind in its bitmap exactly when it has a
source for the kind, provided the records of the tensor inputs do. -/
theorem outputRecord_consistent {m : ThreadPredicateMap} {l : List Val} {acc : InputAcc}
    (hacc : inputLoop m l InputAcc.init = Except.ok acc)
    (hinv : ∀ t ∈ tensorViews l, ∀ r, m.find t = some r →
      ∀ K, r.1.get K = true ↔ (r.2.sourcesOf K).Nonempty)
    (K : ParallelType) :
    (outputPreds acc).get K = true ↔ ((outputSrcMap acc).sourcesOf K).Nonempty := by
  obtain ⟨_, hp, hr, _, hs⟩ := inputLoop_ok l hacc
  have hp1 := hp K
  have hr1 := hr K
  simp only [InputAcc.init, ParallelTypeBitmap.get_empty, Bool.false_eq_true, false_or]
    at hp1 hr1
  have hsrc : (acc.src_map.sourcesOf K).Nonempty ↔
      (acc.input_preds.get K = true ∨ acc.input_reductions.get K = true) := by
    rw [hp1, hr1]
    constructor
    · rintro ⟨u, hu⟩
      rcases (hs K u).mp hu with h | ⟨t, ht, r, hr2, h⟩ | ⟨h1, h2⟩
      · simp [InputAcc.init, SourceMapType.sourcesOf, SourceMapType.empty] at h
      · exact Or.inl ⟨t, ht, r, hr2, (hinv t ht r hr2 K).mpr ⟨u, h⟩⟩
      · exact Or.inr ⟨u, h1, h2⟩
    · rintro (⟨t, ht, r, hr2, h⟩ | ⟨u, h1, h2⟩)
      · obtain ⟨u, hu⟩ := (hinv t ht r hr2 K).mp h
        exact ⟨u, (hs K u).mpr (Or.inr (Or.inl ⟨t, ht, r, hr2, hu⟩))⟩
      · exact ⟨u, (hs K u).mpr (Or.inr (Or.inr ⟨h1, h2⟩))⟩
  rw [outputPreds_get]
  by_cases hb : ((preResetOutputPreds acc).get K && acc.input_bcasts.get K) = true
  · have hb2 := hb
    simp only [Bool.and_eq_true] at hb2
    have hsE : (outputSrcMap acc).sourcesOf K = ∅ := by
      simp [SourceMapType.sourcesOf, outputSrcMap_apply, hb]
    rw [hsE]
    simp [hb2.2]
  · have hsE : (outputSrcMap acc).sourcesOf K = acc.src_map.sourcesOf K := by
      simp [SourceMapType.sourcesOf, outputSrcMap_apply, hb]
    rw [hsE, hsrc]
    simp only [preResetOutputPreds, ParallelTypeBitmap.get_or, Bool.and_eq_true,
      Bool.or_eq_true, not_and, Bool.not_eq_true] at hb
    constructor
    · intro h
      simp only [Bool.and_eq_true, Bool.or_eq_true] at h
      exact h.1
    · intro h
      simp only [Bool.and_eq_true, Bool.or_eq_true]
      exact ⟨h, by simp [hb h]⟩

/-- In every map built by the pass, every record has a kind in its bitmap exactly when
its source set for the kind is non-empty. -/
theorem reachable_consistent {m : ThreadPredicateMap} (hm : Reachable m) :
    ∀ t r, m.find t = some r → ∀ K, r.1.get K = true ↔ (r.2.sourcesOf K).Nonempty := by
  induction hm with
  | inputs l =>
    intro t r h K
    rcases insertInputs_find_cases l h with h1 | h1
    · simp [ThreadPredicateMap.init, ThreadPredicateMap.find] at h1
    · subst h1
      simp [SourceMapType.sourcesOf, SourceMapType.empty]
  | update m expr _ hok ih =>
    intro t r h K
    obtain ⟨acc, hacc, _⟩ := updateBitSet_ok hok
    have h2 : (outputLoop (outputPreds acc) (outputSrcMap acc) expr.outputs m).2.find t
        = some r := by
      unfold ThreadPredicateMap.updateBitSet at h
      simpa only [hacc] using h
    rcases outputLoop_find_cases _ _ _ h2 with h1 | h1
    · exact ih t r h1 K
    · subst h1
      exact outputRecord_consistent hacc (fun t1 _ r1 hr1 => ih t1 r1 hr1) K
  | duplicate m copy origin _ ih =>
    intro t r h K
    rcases ThreadPredicateMap.find_duplicate_cases h with h1 | h1
    · exact ih t r h1 K
    · exact ih origin r h1 K

/-- C17: in every map state reachable from the empty map by the constructor's input
initialisation, successful `updateBitSet` calls and `duplicate` calls, every record
has kind `K` set in its bitmap if and only if its source set for `K` is non-empty. -/
theorem reachable_bit_iff_source (m : ThreadPredicateMap) (hm : Reachable m)
    (t : TensorView) (r : PredAndSource) (h : m.find t = some r) (K : ParallelType) :
    r.1.get K = true ↔ (r.2.sourcesOf K).Nonempty :=
  reachable_consistent hm t r h K

/-- Witness for C17: the record of `c` after the pass over the chain `a → b → c` with
the dimensions on the produced tensors. -/
theorem reachable_bit_iff_source_witness :
    ∃ r, (((mapOfInputs [tvPlain 0]).updateBitSet
          (tvExpr [tvPlain 0] [tvRed 1 ParallelType.TIDx])).2.updateBitSet
          (tvExpr [tvRed 1 ParallelType.TIDx] [tvBcast 2 ParallelType.TIDx])).2.find
        (tvBcast 2 ParallelType.TIDx) = some r ∧
      (r.1.get ParallelType.TIDx = true ↔ (r.2.sourcesOf ParallelType.TIDx).Nonempty) :=
  ⟨_, rfl,
   reachable_bit_iff_source _
     (Reachable.update _ (tvExpr [tvRed 1 ParallelType.TIDx] [tvBcast 2 ParallelType.TIDx])
       (Reachable.update _ (tvExpr [tvPlain 0] [tvRed 1 ParallelType.TIDx])
         (Reachable.inputs [Val.tv (tvPlain 0)]) rfl) rfl)
     (tvBcast 2 ParallelType.TIDx) _ rfl ParallelType.TIDx⟩

/-! ## The guard builder on maps built by the pass -/

theorem ParallelType.isBlockDim_iff (K : ParallelType) :
    K.isBlockDim = true ↔
      (K = ParallelType.BIDx ∨ K = ParallelType.BIDy ∨ K = ParallelType.BIDz) := by
  cases K <;> simp [ParallelType.isBlockDim]

/-- With a non-empty source set, the sub-expression of a kind fails to build exactly for
a block-level kind with two or more sources, and then with "Multiple sources
detected". -/
theorem getPredicatePerParallelType_cases (K : ParallelType) (s : Finset TensorView)
    (h0 : s.card ≠ 0) :
    (K.isBlockDim = true ∧ 2 ≤ s.card ∧
      getPredicatePerParallelType K s = Except.error Error.multipleSources) ∨
    (¬ (K.isBlockDim = true ∧ 2 ≤ s.card) ∧
      ∃ tp, getPredicatePerParallelType K s = Except.ok tp) := by
  by_cases hK : K.isBlockDim = true
  · have hK2 := (ParallelType.isBlockDim_iff K).mp hK
    by_cases h1 : s.card = 1
    · right
      refine ⟨by omega, ?_⟩
      obtain ⟨a, ha⟩ := Finset.card_eq_one.mp h1
      subst ha
      exact ⟨_, getPredicatePerParallelType_block_single hK2 a⟩
    · left
      refine ⟨hK, by omega, ?_⟩
      unfold getPredicatePerParallelType
      rw [if_pos hK2, if_neg h0, if_pos h1]
  · right
    refine ⟨fun h => hK h.1, ?_⟩
    have hK3 : K.isBlockDim = false := by
      cases hb : K.isBlockDim with
      | false => rfl
      | true => exact absurd hb hK
    exact ⟨_, getPredicatePerParallelType_thread hK3 s⟩

/-- When every set kind has a non-empty entry, the loop can only fail with "Multiple
sources detected". -/
theorem getPredicateLoop_error_eq (sources : SourceMapType) (l : List (ParallelType × Bool))
    (hl : ∀ p ∈ l, p.2 = true → ∃ s, sources p.1 = some s ∧ s.card ≠ 0)
    (pred : Option KirVal) (e : Error)
    (h : getPredicateLoop sources l pred = Except.error e) :
    e = Error.multipleSources := by
  induction l generalizing pred with
  | nil => simp [getPredicateLoop] at h
  | cons a rest ih =>
    have hrest : ∀ p ∈ rest, p.2 = true → ∃ s, sources p.1 = some s ∧ s.card ≠ 0 :=
      fun p hp => hl p (List.mem_cons_of_mem _ hp)
    simp only [getPredicateLoop] at h
    cases hb : a.2 with
    | false =>
      simp only [hb, Bool.false_eq_true, if_false] at h
      exact ih hrest pred h
    | true =>
      obtain ⟨s, hs, h0⟩ := hl a (List.mem_cons_self _ _) hb
      simp only [hb, if_true, hs] at h
      rcases getPredicatePerParallelType_cases a.1 s h0 with ⟨_, _, hp⟩ | ⟨_, tp, hp⟩
      · simp only [hp] at h
        injection h with h
        exact h.symm
      · simp only [hp] at h
        exact ih hrest _ h

/-- For a record in which every set kind has a source, the guard builder fails exactly
when a set block-level kind has two or more sources, and only with "Multiple sources
detected". -/
theorem getPredicate_of_sources (bits : ParallelTypeBitmap) (sources : SourceMapType)
    (hinv : ∀ K, bits.get K = true → (sources.sourcesOf K).Nonempty) :
    (∀ e, getPredicate bits sources = Except.error e → e = Error.multipleSources) ∧
    ((∃ e, getPredicate bits sources = Except.error e) ↔
      ∃ K, bits.get K = true ∧ K.isBlockDim = true ∧ 2 ≤ (sources.sourcesOf K).card) := by
  have hentry : ∀ K, bits.get K = true →
      ∃ s, sources K = some s ∧ s.card ≠ 0 ∧ sources.sourcesOf K = s := by
    intro K hK
    obtain ⟨u, hu⟩ := hinv K hK
    unfold SourceMapType.sourcesOf at hu ⊢
    cases hs : sources K with
    | none => simp [hs] at hu
    | some s =>
      rw [hs] at hu
      exact ⟨s, rfl, Finset.card_ne_zero_of_mem hu, rfl⟩
  have hl : ∀ p ∈ bits.getMap, p.2 = true → ∃ s, sources p.1 = some s ∧ s.card ≠ 0 := by
    intro p hp hp2
    unfold ParallelTypeBitmap.getMap at hp
    obtain ⟨k, _, hk⟩ := List.mem_map.mp hp
    subst hk
    obtain ⟨s, hs, h0, _⟩ := hentry k hp2
    exact ⟨s, hs, h0⟩
  cases hn : bits.none with
  | true =>
    have hg : getPredicate bits sources = Except.ok (KirVal.boolConst true) := by
      unfold getPredicate
      simp [hn]
    rw [hg]
    refine ⟨fun e he => Except.noConfusion he, ?_⟩
    constructor
    · rintro ⟨e, he⟩
      exact Except.noConfusion he
    · rintro ⟨K, hK, _⟩
      rw [(ParallelTypeBitmap.none_iff bits).mp hn K] at hK
      exact Bool.noConfusion hK
  | false =>
    cases hloop : getPredicateLoop sources bits.getMap Option.none with
    | error e =>
      have hg : getPredicate bits sources = Except.error e := by
        unfold getPredicate
        simp [hn, hloop]
      rw [hg]
      refine ⟨?_, ?_⟩
      · intro e1 he1
        injection he1 with he1
        rw [← he1]
        exact getPredicateLoop_error_eq sources _ hl _ e hloop
      · refine ⟨fun _ => ?_, fun _ => ⟨e, rfl⟩⟩
        by_contra hcon
        have hok : ∃ res, getPredicateLoop sources bits.getMap Option.none = Except.ok res := by
          rw [getPredicateLoop_ok_iff]
          intro p hp hp2
          obtain ⟨k, _, hk⟩ := List.mem_map.mp hp
          subst hk
          obtain ⟨s, hs, h0, hso⟩ := hentry k hp2
          rcases getPredicatePerParallelType_cases k s h0 with ⟨h1, h2, _⟩ | ⟨_, tp, htp⟩
          · exact absurd ⟨k, hp2, h1, by rw [hso]; exact h2⟩ hcon
          · exact ⟨s, tp, hs, htp⟩
        obtain ⟨res, hres⟩ := hok
        rw [hloop] at hres
        exact Except.noConfusion hres
    | ok res =>
      have env0 : Env := ⟨fun _ => 0, fun _ => false⟩
      obtain ⟨i1, i2⟩ := getPredicateLoop_eval env0 sources bits.getMap Option.none res true
        hloop (by intro p hp; exact Option.noConfusion hp) (fun _ => rfl)
      cases res with
      | none =>
        exfalso
        have hall := (i1.mp rfl).2
        have hnone : bits.none = true := by
          rw [ParallelTypeBitmap.none_iff]
          intro k
          exact hall _ (mem_getMap bits k)
        rw [hn] at hnone
        exact Bool.noConfusion hnone
      | some q =>
        have hg : getPredicate bits sources = Except.ok q := by
          unfold getPredicate
          simp [hn, hloop, (i2 q rfl).1]
        rw [hg]
        refine ⟨fun e he => Except.noConfusion he, ?_⟩
        constructor
        · rintro ⟨e, he⟩
          exact Except.noConfusion he
        · rintro ⟨K, hK, hblk, hcard⟩
          exfalso
          obtain ⟨s, hs, h0, hso⟩ := hentry K hK
          obtain ⟨e, he⟩ := getPredicateLoop_error sources hs
            ⟨Error.multipleSources, by
              rcases getPredicatePerParallelType_cases K s h0 with ⟨_, _, h3⟩ | ⟨h3, _⟩
              · exact h3
              · exact absurd ⟨hblk, by rw [← hso]; exact hcard⟩ h3⟩
            bits.getMap (hK ▸ mem_getMap bits K) Option.none
          rw [hloop] at he
          exact Except.noConfusion he

/-- C18: for every map state built by the pass and every value with a record, `getExpr`
fails neither with a missing source-map key nor with "No predicate source found"; it
fails if and only if some block-level kind set in the value's bitmap has two or more
recorded sources (and then with "Multiple sources detected"). -/
theorem getExpr_on_reachable (m : ThreadPredicateMap) (hm : Reachable m) (t : TensorView)
    (r : PredAndSource) (h : m.find t = some r) :
    m.getExpr t ≠ Except.error Error.outOfRange ∧
    m.getExpr t ≠ Except.error Error.noPredicateSource ∧
    (∀ e, m.getExpr t = Except.error e → e = Error.multipleSources) ∧
    ((∃ e, m.getExpr t = Except.error e) ↔
      ∃ K, r.1.get K = true ∧ K.isBlockDim = true ∧ 2 ≤ (r.2.sourcesOf K).card) := by
  have hg : m.getExpr t = getPredicate r.1 r.2 := by
    unfold ThreadPredicateMap.getExpr
    rw [h]
  obtain ⟨h1, h2⟩ := getPredicate_of_sources r.1 r.2
    (fun K hK => (reachable_consistent hm t r h K).mp hK)
  rw [hg]
  refine ⟨?_, ?_, h1, h2⟩
  · intro hc
    exact Error.noConfusion (h1 _ hc)
  · intro hc
    exact Error.noConfusion (h1 _ hc)

/-- Witness for C18: tensor 5 combines two reductions on `BIDx`; its record holds two
sources for `BIDx` and `getExpr` fails on it. -/
theorem getExpr_on_reachable_witness :
    ∃ e, twoBlockSourcesMap.getExpr (tvPlain 5) = Except.error e :=
  (getExpr_on_reachable twoBlockSourcesMap
    (Reachable.update _
      (tvExpr [tvRed 1 ParallelType.BIDx, tvRed 4 ParallelType.BIDx] [tvPlain 5])
      (Reachable.update _ (tvExpr [tvPlain 3] [tvRed 4 ParallelType.BIDx])
        (Reachable.update _ (tvExpr [tvPlain 0] [tvRed 1 ParallelType.BIDx])
          (Reachable.inputs [Val.tv (tvPlain 0), Val.tv (tvPlain 3)]) rfl) rfl) rfl)
    (tvPlain 5) _ rfl).2.2.2.mpr ⟨ParallelType.BIDx, rfl, rfl, by decide⟩

/-! ## Order of the inputs -/

theorem mem_tensorViews (l : List Val) (t : TensorView) :
    t ∈ tensorViews l ↔ Val.tv t ∈ l := by
  induction l with
  | nil => simp [tensorViews]
  | cons a rest ih =>
    cases a with
    | scalar n => simp [tensorViews_cons_scalar, ih]
    | tv u => simp [tensorViews_cons_tv, ih]

/-- The kinds that have an entry in the source map after a successful input loop. -/
theorem inputLoop_isSome {m : ThreadPredicateMap} (l : List Val) {acc acc1 : InputAcc}
    (h : inputLoop m l acc = Except.ok acc1) (k : ParallelType) :
    (acc1.src_map k).isSome = true ↔
      (acc.src_map k).isSome = true ∨
        (∃ t ∈ tensorViews l, ∃ r, m.find t = some r ∧ (r.2 k).isSome = true) ∨
        (∃ t ∈ tensorViews l, t.reductionOn k = true) := by
  induction l generalizing acc with
  | nil =>
    simp only [inputLoop] at h
    injection h with h
    subst h
    simp [tensorViews]
  | cons inp rest ih =>
    cases inp with
    | scalar n =>
      simp only [inputLoop, processInput_scalar] at h
      simpa [tensorViews_cons_scalar] using ih h
    | tv t =>
      simp only [inputLoop] at h
      cases hp : processInput m acc (Val.tv t) with
      | error e => simp [hp] at h
      | ok acc2 =>
        simp only [hp] at h
        obtain ⟨r, hr, _, _, _, _, hsrc⟩ := processInput_tv hp
        rw [ih h, tensorViews_cons_tv]
        have hstep : (acc2.src_map k).isSome = true ↔
            (acc.src_map k).isSome = true ∨ (r.2 k).isSome = true ∨ t.reductionOn k = true := by
          rw [hsrc k, mergeSourceMap_apply]
          cases hrk : r.2 k <;> cases hak : acc.src_map k <;>
            cases hred1 : t.reductionOn k <;> simp
        rw [hstep]
        simp only [List.mem_cons, exists_eq_or_imp]
        constructor
        · rintro ((h1 | h1 | h1) | h1 | h1)
          · exact Or.inl h1
          · exact Or.inr (Or.inl (Or.inl ⟨r, hr, h1⟩))
          · exact Or.inr (Or.inr (Or.inl h1))
          · exact Or.inr (Or.inl (Or.inr h1))
          · exact Or.inr (Or.inr (Or.inr h1))
        · rintro (h1 | (⟨r1, hr1, h1⟩ | h1) | h1 | h1)
          · exact Or.inl (Or.inl h1)
          · rw [hr] at hr1
            injection hr1 with hr1
            subst hr1
            exact Or.inl (Or.inr (Or.inl h1))
          · exact Or.inr (Or.inl h1)
          · exact Or.inl (Or.inr (Or.inr h1))
          · exact Or.inr (Or.inr h1)

theorem option_finset_eq {o1 o2 : Option (Finset TensorView)}
    (hsome : o1.isSome = true ↔ o2.isSome = true)
    (hmem : ∀ u, u ∈ o1.getD ∅ ↔ u ∈ o2.getD ∅) : o1 = o2 := by
  cases o1 with
  | none =>
    cases o2 with
    | none => rfl
    | some s2 => simp at hsome
  | some s1 =>
    cases o2 with
    | none => simp at hsome
    | some s2 =>
      have : s1 = s2 := Finset.ext (by simpa using hmem)
      rw [this]

/-- The locals after two successful input loops over permuted inputs give the same
output record. -/
theorem outputRecord_perm {m : ThreadPredicateMap} {l1 l2 : List Val} (hperm : l1.Perm l2)
    {acc1 acc2 : InputAcc}
    (h1 : inputLoop m l1 InputAcc.init = Except.ok acc1)
    (h2 : inputLoop m l2 InputAcc.init = Except.ok acc2) :
    outputPreds acc1 = outputPreds acc2 ∧ outputSrcMap acc1 = outputSrcMap acc2 := by
  have hmem : ∀ t, t ∈ tensorViews l1 ↔ t ∈ tensorViews l2 := by
    intro t
    rw [mem_tensorViews, mem_tensorViews]
    exact hperm.mem_iff
  have hex : ∀ P : TensorView → Prop,
      (∃ t ∈ tensorViews l1, P t) ↔ (∃ t ∈ tensorViews l2, P t) := by
    intro P
    constructor
    · rintro ⟨t, ht, hP⟩
      exact ⟨t, (hmem t).mp ht, hP⟩
    · rintro ⟨t, ht, hP⟩
      exact ⟨t, (hmem t).mpr ht, hP⟩
  obtain ⟨_, p1, r1, b1, s1⟩ := inputLoop_ok l1 h1
  obtain ⟨_, p2, r2, b2, s2⟩ := inputLoop_ok l2 h2
  have hp : ∀ K, acc1.input_preds.get K = acc2.input_preds.get K := by
    intro K
    rw [Bool.eq_iff_iff, p1 K, p2 K, hex]
  have hr : ∀ K, acc1.input_reductions.get K = acc2.input_reductions.get K := by
    intro K
    rw [Bool.eq_iff_iff, r1 K, r2 K, hex]
  have hb : ∀ K, acc1.input_bcasts.get K = acc2.input_bcasts.get K := by
    intro K
    rw [Bool.eq_iff_iff, b1 K, b2 K, hex]
  have hs : ∀ K, acc1.src_map K = acc2.src_map K := by
    intro K
    apply option_finset_eq
    · rw [inputLoop_isSome l1 h1 K, inputLoop_isSome l2 h2 K, hex, hex]
    · intro u
      have e1 := s1 K u
      have e2 := s2 K u
      unfold SourceMapType.sourcesOf at e1 e2
      rw [e1, e2, hex, hmem u]
  constructor
  · apply ParallelTypeBitmap.ext_get
    intro K
    rw [outputPreds_get, outputPreds_get, hp K, hr K, hb K]
  · funext K
    rw [outputSrcMap_apply, outputSrcMap_apply]
    simp only [preResetOutputPreds, ParallelTypeBitmap.get_or, hp K, hr K, hb K, hs K]

/-- C19: for every map state, operation and permutation of the operation's inputs, if
`updateBitSet` succeeds on both input orders, the two resulting maps hold the same record
for every value; in particular the records inserted for the outputs are equal. -/
theorem updateBitSet_input_order (m : ThreadPredicateMap) (ins1 ins2 outs : List Val)
    (hperm : ins1.Perm ins2)
    (h1 : (m.updateBitSet ⟨ins1, outs⟩).1 = Except.ok ())
    (h2 : (m.updateBitSet ⟨ins2, outs⟩).1 = Except.ok ()) :
    ∀ t, (m.updateBitSet ⟨ins1, outs⟩).2.find t = (m.updateBitSet ⟨ins2, outs⟩).2.find t := by
  obtain ⟨acc1, hacc1, hout1⟩ := updateBitSet_ok h1
  obtain ⟨acc2, hacc2, hout2⟩ := updateBitSet_ok h2
  obtain ⟨hp, hs⟩ := outputRecord_perm hperm hacc1 hacc2
  intro t
  by_cases ht : t ∈ tensorViews outs
  · rw [hout1 t ht, hout2 t ht, hp, hs]
  · unfold ThreadPredicateMap.updateBitSet
    simp only [hacc1, hacc2]
    rw [outputLoop_find_of_not_mem _ _ _ _ ht, outputLoop_find_of_not_mem _ _ _ _ ht]

/-- Witness for C19: a plain input and a reducing input, in both orders; the output
tensor 3 gets the same record. -/
theorem updateBitSet_input_order_witness :
    ((mapOfInputs [tvPlain 1, tvRed 2 ParallelType.TIDx]).updateBitSet
        ⟨[Val.tv (tvPlain 1), Val.tv (tvRed 2 ParallelType.TIDx)],
          [Val.tv (tvPlain 3)]⟩).2.find (tvPlain 3)
      = ((mapOfInputs [tvPlain 1, tvRed 2 ParallelType.TIDx]).updateBitSet
        ⟨[Val.tv (tvRed 2 ParallelType.TIDx), Val.tv (tvPlain 1)],
          [Val.tv (tvPlain 3)]⟩).2.find (tvPlain 3) :=
  updateBitSet_input_order (mapOfInputs [tvPlain 1, tvRed 2 ParallelType.TIDx])
    [Val.tv (tvPlain 1), Val.tv (tvRed 2 ParallelType.TIDx)]
    [Val.tv (tvRed 2 ParallelType.TIDx), Val.tv (tvPlain 1)] [Val.tv (tvPlain 3)]
    (by decide) rfl rfl (tvPlain 3)

/-! ## duplicate -/

/-- C20: `duplicate(copy, origin)` never raises; every value other than `copy` keeps its
record or its absence; and when `origin` has no record the map is unchanged, so `copy`
gains no record. -/
theorem duplicate_frame (m : ThreadPredicateMap) (copy origin : TensorView) :
    m.duplicateAt copy origin = Except.ok (m.duplicate copy origin) ∧
    (∀ t, t ≠ copy → (m.duplicate copy origin).find t = m.find t) ∧
    (m.find origin = Option.none →
      m.duplicate copy origin = m ∧ (m.duplicate copy origin).find copy = m.find copy) := by
  refine ⟨?_, ?_, ?_⟩
  · unfold ThreadPredicateMap.duplicateAt ThreadPredicateMap.duplicate ThreadPredicateMap.at
    cases ho : m.find origin with
    | none => simp
    | some r =>
      unfold ThreadPredicateMap.find at ho
      simp [ho]
  · intro t ht
    unfold ThreadPredicateMap.duplicate
    cases ho : m.find origin with
    | none => rfl
    | some r => exact ThreadPredicateMap.find_insert_of_ne m ht r.1 r.2
  · intro ho
    have : m.duplicate copy origin = m := by
      unfold ThreadPredicateMap.duplicate
      rw [ho]
    rw [this]
    exact ⟨rfl, rfl⟩

end Fuser
